import Mathlib

/-!
# GPIO interrupt callback table of `luat/modules/luat_lib_gpio.c`

A shallow embedding of the Lua binding of the GPIO module: the static table
`irq_cbs` of `GPIO_IRQ_COUNT` entries, the functions `l_gpio_setup`,
`l_gpio_close` and `l_gpio_handler` that read and write it, and `l_gpio_get`.

Conventions of the embedding.

* Integers are the values of the C `int` variables (`conf.pin`, `int pin`,
  `lua_ref`, `msg->arg1`, `msg->arg2`), after the conversion from the Lua
  integer argument; no arithmetic is done on them, only comparisons.
* Every call of a function that is not defined in the source file (the hardware
  layer `luat_gpio_*`, the Lua auxiliary library) is recorded as an `Event`, in
  program order.  What such a call returns is an input of the embedded function.
* A `for` loop over `i = 0 .. GPIO_IRQ_COUNT-1` is a recursion over the entries
  of the table in index order; `break` and `return` end the recursion.
-/

namespace GpioLib

/-! ## Data -/

/-- Size of the table: `#define GPIO_IRQ_COUNT 16`. -/
def GPIO_IRQ_COUNT : Nat := 16

/-- One table entry, `struct luat_lib_gpio_cb`. -/
structure luat_lib_gpio_cb_t where
  pin : Int
  lua_ref : Int
  deriving DecidableEq, Repr

/-- The array `irq_cbs[GPIO_IRQ_COUNT]`: exactly `GPIO_IRQ_COUNT` entries. -/
abbrev Table := { l : List luat_lib_gpio_cb_t // l.length = GPIO_IRQ_COUNT }

/-- The configuration record `luat_gpio_t` handed to `luat_gpio_setup`; its
declaration is in `luat_gpio.h`, the fields are the ones `l_gpio_setup` assigns. -/
structure luat_gpio_t where
  pin : Int
  mode : Int
  pull : Int
  irq : Int
  lua_ref : Int
  deriving DecidableEq, Repr

/-- The constants of `luat_gpio.h` that `l_gpio_setup` uses.  The header is not
part of the source file, so their values are parameters of the embedding. -/
structure GpioConsts where
  Luat_GPIO_OUTPUT : Int
  Luat_GPIO_INPUT : Int
  Luat_GPIO_IRQ : Int
  Luat_GPIO_DEFAULT : Int
  Luat_GPIO_BOTH : Int
  deriving DecidableEq, Repr

/-- Calls that leave the source file, in the order the code makes them. -/
inductive Event where
  /-- Call `luaL_ref(L, LUA_REGISTRYINDEX)`, which returned `h`. -/
  | luaL_ref (h : Int)
  /-- Call `luaL_unref(L, LUA_REGISTRYINDEX, h)`. -/
  | luaL_unref (h : Int)
  /-- Call `luat_gpio_setup(&conf)`. -/
  | luat_gpio_setup (conf : luat_gpio_t)
  /-- Call `luat_gpio_close(pin)`. -/
  | luat_gpio_close (pin : Int)
  /-- Call `luat_gpio_get(pin)`. -/
  | luat_gpio_get (pin : Int)
  /-- Call `luat_log_warn` with the text "too many irq setup!!!!". -/
  | luat_log_warn
  /-- Call `lua_call(L, 1, 0)` of the value stored under key `h`, with argument `arg`. -/
  | lua_call (h : Int) (arg : Int)
  deriving DecidableEq, Repr

/-- Program state: the static table, and the keys of the Lua registry that hold
a callback retained by this module. -/
structure State where
  irq_cbs : Table
  registry : List Int
  deriving DecidableEq

/-- Modelled from the spec: the host runtime's registry (`luaL_ref`,
`luaL_unref` of lauxlib) is not in the source file.  Retaining makes a handle
live, releasing ends its life, every other call leaves the registry alone. -/
def regStep (reg : List Int) : Event → List Int
  | Event.luaL_ref h => h :: reg
  | Event.luaL_unref h => reg.filter (fun k => k ≠ h)
  | _ => reg

/-- The registry after a sequence of calls. -/
def regAfter (reg : List Int) (evs : List Event) : List Int :=
  evs.foldl regStep reg

/-- Modelled from the spec: the lookup `lua_geti(L, LUA_REGISTRYINDEX, h)` of
the host runtime, followed by `!lua_isnil(L, -1)`: the value is not nil exactly
when `h` is a live handle. -/
def registryHolds (reg : List Int) (h : Int) : Bool :=
  decide (h ∈ reg)

/-- The zero-initialised static array: every entry has `pin = 0`, `lua_ref = 0`. -/
def Table.empty : Table :=
  ⟨List.replicate GPIO_IRQ_COUNT { pin := 0, lua_ref := 0 }, by simp⟩

/-- State at start-up: empty table, nothing retained. -/
def State.init : State :=
  { irq_cbs := Table.empty, registry := [] }

/-- What a binding function hands back: the new state, the calls it made, its C
return value and the integers it pushed on the Lua stack. -/
structure Outcome where
  state : State
  events : List Event
  ret : Int
  pushed : List Int
  deriving DecidableEq

/-! ## `l_gpio_handler` -/

/-- The loop of `l_gpio_handler` (lines 28-38): the first entry whose pin is
`pin` is looked up in the registry and, when the value is not nil, called with
`arg2`; then the function returns. -/
def handlerScan (reg : List Int) (pin arg2 : Int) : List luat_lib_gpio_cb_t → List Event
  | [] => []
  | e :: rest =>
    if e.pin = pin then
      if registryHolds reg e.lua_ref then [Event.lua_call e.lua_ref arg2] else []
    else handlerScan reg pin arg2 rest

/-- The function `l_gpio_handler`, for a message with `arg1 = pin`, `arg2 = arg2`.
The table is not written and the function returns 0 on every path. -/
def l_gpio_handler (s : State) (pin arg2 : Int) : Outcome :=
  { state := s
    events := handlerScan s.registry pin arg2 s.irq_cbs.val
    ret := 0
    pushed := [] }

/-- Line 31 of `l_gpio_handler`: the registry key the handler looks up with
`lua_geti`, which is the `lua_ref` of the first entry whose pin is `pin`; none
when no entry has the pin. -/
def handlerLookup (pin : Int) : List luat_lib_gpio_cb_t → Option Int
  | [] => none
  | e :: rest => if e.pin = pin then some e.lua_ref else handlerLookup pin rest

/-! ## `l_gpio_setup` -/

/-- Shape of the second argument of `gpio.setup`, as `lua_isfunction` and
`lua_isinteger` see it. -/
inductive LuaArg where
  | function
  | integer (v : Int)
  | other
  deriving DecidableEq, Repr

/-- One call of `gpio.setup`: its arguments, and what the two outside calls
return (`luaL_ref`, made only for a function argument, and `luat_gpio_setup`). -/
structure SetupCall where
  pin : Int
  mode : LuaArg
  pull : Option Int
  irq : Option Int
  newRef : Int
  hwResult : Int
  deriving DecidableEq, Repr

/-- Lines 63-79 of `l_gpio_setup`: the record `conf`. -/
def setupConf (K : GpioConsts) (c : SetupCall) : luat_gpio_t :=
  { pin := c.pin
    mode := match c.mode with
      | LuaArg.function => K.Luat_GPIO_IRQ
      | LuaArg.integer _ => K.Luat_GPIO_OUTPUT
      | LuaArg.other => K.Luat_GPIO_INPUT
    pull := c.pull.getD K.Luat_GPIO_DEFAULT
    irq := c.irq.getD K.Luat_GPIO_BOTH
    lua_ref := match c.mode with
      | LuaArg.function => c.newRef
      | _ => 0 }

/-- The `luaL_ref` call of line 70, made only when argument 2 is a function. -/
def setupRefEvents (c : SetupCall) : List Event :=
  match c.mode with
  | LuaArg.function => [Event.luaL_ref c.newRef]
  | _ => []

/-- The loop of `l_gpio_setup` (lines 83-98).  Result: the table, the calls
made, and `flag` (1 when the loop ran to the end without a `break`). -/
def setupScan (pin ref : Int) :
    List luat_lib_gpio_cb_t → List luat_lib_gpio_cb_t × List Event × Int
  | [] => ([], [], 1)
  | e :: rest =>
    if e.pin = pin then
      if e.lua_ref ≠ 0 ∧ e.lua_ref ≠ ref then
        ({ e with lua_ref := ref } :: rest, [Event.luaL_unref e.lua_ref], 0)
      else
        (e :: rest, [], 0)
    else if e.pin = 0 then
      ({ pin := pin, lua_ref := ref } :: rest, [], 0)
    else
      let r := setupScan pin ref rest
      (e :: r.1, r.2.1, r.2.2)

/-- The loop of `l_gpio_setup` on the 16-entry table. -/
def Table.setupScan (pin ref : Int) (t : Table) : Table × List Event × Int :=
  let r := GpioLib.setupScan pin ref t.val
  (⟨r.1, by
      have key : ∀ l : List luat_lib_gpio_cb_t,
          (GpioLib.setupScan pin ref l).1.length = l.length := by
        intro l
        induction l with
        | nil => rfl
        | cons e rest ih =>
          unfold GpioLib.setupScan
          split_ifs <;> simp [ih]
      exact (key t.val).trans t.property⟩, r.2.1, r.2.2)

/-- End of a binding function: the registry follows the calls made. -/
def finish (s : State) (t : Table) (evs : List Event) (ret : Int) (pushed : List Int) :
    Outcome :=
  { state := { irq_cbs := t, registry := regAfter s.registry evs }
    events := evs
    ret := ret
    pushed := pushed }

/-- The function `l_gpio_setup` (lines 60-108). -/
def l_gpio_setup (K : GpioConsts) (s : State) (c : SetupCall) : Outcome :=
  let conf := setupConf K c
  let ev0 := setupRefEvents c ++ [Event.luat_gpio_setup conf]
  if c.hwResult = 0 then
    let r := Table.setupScan conf.pin conf.lua_ref s.irq_cbs
    if r.2.2 ≠ 0 then
      finish s r.1
        (ev0 ++ r.2.1 ++ [Event.luat_log_warn, Event.luat_gpio_close conf.pin]) 1 [0]
    else
      finish s r.1 (ev0 ++ r.2.1) 1 [1]
  else
    finish s s.irq_cbs ev0 1 [0]

/-! ## `l_gpio_close` -/

/-- The loop of `l_gpio_close` (lines 151-159): every entry whose pin is `pin`
gets `pin = 0`, and its handle, when it has one, is released and set to 0. -/
def closeScan (pin : Int) : List luat_lib_gpio_cb_t → List luat_lib_gpio_cb_t × List Event
  | [] => ([], [])
  | e :: rest =>
    let r := closeScan pin rest
    if e.pin = pin then
      if e.lua_ref ≠ 0 then
        ({ pin := 0, lua_ref := 0 } :: r.1, Event.luaL_unref e.lua_ref :: r.2)
      else
        ({ pin := 0, lua_ref := e.lua_ref } :: r.1, r.2)
    else
      (e :: r.1, r.2)

/-- The loop of `l_gpio_close` on the 16-entry table. -/
def Table.closeScan (pin : Int) (t : Table) : Table × List Event :=
  let r := GpioLib.closeScan pin t.val
  (⟨r.1, by
      have key : ∀ l : List luat_lib_gpio_cb_t,
          (GpioLib.closeScan pin l).1.length = l.length := by
        intro l
        induction l with
        | nil => rfl
        | cons e rest ih =>
          unfold GpioLib.closeScan
          split_ifs <;> simp [ih]
      exact (key t.val).trans t.property⟩, r.2)

/-- The function `l_gpio_close` (lines 148-161).  `hw` is whatever the hardware
`luat_gpio_close` hands back; the code does not look at it. -/
def l_gpio_close (s : State) (pin : Int) (_hw : Int) : Outcome :=
  let r := Table.closeScan pin s.irq_cbs
  finish s r.1 (Event.luat_gpio_close pin :: r.2) 0 []

/-! ## `l_gpio_get` -/

/-- The C expression `v & 0x01` on an `int`: bit 0 of the 32-bit two's
complement representation of `v`, which is `v` modulo `2^32`. -/
def and0x01 (v : Int) : Int :=
  (v % 4294967296) % 2

/-- The function `l_gpio_get` (lines 134-137): `v` is what `luat_gpio_get(pin)`
returns; the function pushes `v & 0x01 ? 1 : 0` and returns 1. -/
def l_gpio_get (s : State) (pin v : Int) : Outcome :=
  finish s s.irq_cbs [Event.luat_gpio_get pin] 1 [if and0x01 v ≠ 0 then 1 else 0]

/-! ## Executions -/

/-- A handle `luaL_ref` can return: not zero, and not a key that is in use. -/
def Fresh (s : State) (h : Int) : Prop :=
  h ≠ 0 ∧ h ∉ s.registry

instance (s : State) (h : Int) : Decidable (Fresh s h) :=
  inferInstanceAs (Decidable (h ≠ 0 ∧ h ∉ s.registry))

/-- A call of `gpio.setup` the program can make in state `s`: when it retains a
handle (argument 2 is a function), the handle is fresh. -/
def SetupCall.admissible (s : State) (c : SetupCall) : Prop :=
  c.mode = LuaArg.function → Fresh s c.newRef

instance (s : State) (c : SetupCall) : Decidable (c.admissible s) :=
  inferInstanceAs (Decidable (c.mode = LuaArg.function → Fresh s c.newRef))

/-- The calls into the module. -/
inductive Call where
  | setup (c : SetupCall)
  | close (pin : Int) (hw : Int)
  | dispatch (pin : Int) (arg : Int)
  deriving DecidableEq, Repr

/-- One call. -/
def step (K : GpioConsts) (s : State) : Call → Outcome
  | Call.setup c => l_gpio_setup K s c
  | Call.close pin hw => l_gpio_close s pin hw
  | Call.dispatch pin arg => l_gpio_handler s pin arg

/-- A sequence of calls, one after the other: the last state and all the calls
made outside, in order. -/
def run (K : GpioConsts) : State → List Call → State × List Event
  | s, [] => (s, [])
  | s, c :: cs =>
    let o := step K s c
    let r := run K o.state cs
    (r.1, o.events ++ r.2)

/-- Every `gpio.setup` of the sequence is admissible in the state it is made in. -/
def admissibleRun (K : GpioConsts) : State → List Call → Prop
  | _, [] => True
  | s, c :: cs =>
    (match c with
      | Call.setup sc => sc.admissible s
      | _ => True) ∧ admissibleRun K (step K s c).state cs

/-- States the program reaches from start-up by `gpio.setup` and `gpio.close`. -/
inductive Reachable (K : GpioConsts) : State → Prop where
  | init : Reachable K State.init
  | setup (s : State) (c : SetupCall) :
      Reachable K s → c.admissible s → Reachable K (l_gpio_setup K s c).state
  | close (s : State) (pin hw : Int) :
      Reachable K s → Reachable K (l_gpio_close s pin hw).state


/-! ## Predicates on states and on sequences of outside calls -/

/-- Outside calls that are `luat_gpio_close`. -/
def Event.isHwClose : Event → Bool
  | Event.luat_gpio_close _ => true
  | _ => false

/-- The callback handles stored in the table: the non-zero `lua_ref` fields, in
index order. -/
def tableRefs (l : List luat_lib_gpio_cb_t) : List Int :=
  (l.map (fun e => e.lua_ref)).filter (fun h => h ≠ 0)

/-- Ownership invariant of the table: no handle is stored in two slots, and
every stored handle is live in the registry. -/
structure Inv (s : State) : Prop where
  nodup : (tableRefs s.irq_cbs.val).Nodup
  live : ∀ h ∈ tableRefs s.irq_cbs.val, h ∈ s.registry

/-- A sequence of outside calls, started with the live handles `reg`, releases
only handles that are live at that moment and calls only handles that are live
at that moment. -/
def liveDiscipline (reg : List Int) : List Event → Prop
  | [] => True
  | Event.luaL_unref h :: evs => h ∈ reg ∧ liveDiscipline (regStep reg (Event.luaL_unref h)) evs
  | Event.lua_call h _ :: evs => h ∈ reg ∧ liveDiscipline reg evs
  | ev :: evs => liveDiscipline (regStep reg ev) evs

/-- Decision procedure for `liveDiscipline`. -/
def liveDiscipline.dec : (evs : List Event) → (reg : List Int) → Decidable (liveDiscipline reg evs)
  | [], _ => isTrue trivial
  | Event.luaL_unref h :: evs, reg =>
    @instDecidableAnd _ _ inferInstance (liveDiscipline.dec evs (regStep reg (Event.luaL_unref h)))
  | Event.lua_call _ _ :: evs, reg =>
    @instDecidableAnd _ _ inferInstance (liveDiscipline.dec evs reg)
  | Event.luaL_ref h :: evs, reg => liveDiscipline.dec evs (regStep reg (Event.luaL_ref h))
  | Event.luat_gpio_setup c :: evs, reg =>
    liveDiscipline.dec evs (regStep reg (Event.luat_gpio_setup c))
  | Event.luat_gpio_close p :: evs, reg =>
    liveDiscipline.dec evs (regStep reg (Event.luat_gpio_close p))
  | Event.luat_gpio_get p :: evs, reg =>
    liveDiscipline.dec evs (regStep reg (Event.luat_gpio_get p))
  | Event.luat_log_warn :: evs, reg => liveDiscipline.dec evs (regStep reg Event.luat_log_warn)

instance (reg : List Int) (evs : List Event) : Decidable (liveDiscipline reg evs) :=
  liveDiscipline.dec evs reg

/-- Decision procedure for `admissibleRun`. -/
def admissibleRun.dec (K : GpioConsts) :
    (cs : List Call) → (s : State) → Decidable (admissibleRun K s cs)
  | [], _ => isTrue trivial
  | Call.setup sc :: cs, s =>
    @instDecidableAnd _ _ (inferInstanceAs (Decidable (sc.admissible s)))
      (admissibleRun.dec K cs (step K s (Call.setup sc)).state)
  | Call.close p hw :: cs, s =>
    @instDecidableAnd _ _ (isTrue trivial) (admissibleRun.dec K cs (step K s (Call.close p hw)).state)
  | Call.dispatch p x :: cs, s =>
    @instDecidableAnd _ _ (isTrue trivial)
      (admissibleRun.dec K cs (step K s (Call.dispatch p x)).state)

instance (K : GpioConsts) (s : State) (cs : List Call) : Decidable (admissibleRun K s cs) :=
  admissibleRun.dec K cs s

/-- States reached from start-up by `gpio.close` and by `gpio.setup` calls whose
second argument is a function (interrupt mode). -/
inductive ReachableIrq (K : GpioConsts) : State → Prop where
  | init : ReachableIrq K State.init
  | setup (s : State) (c : SetupCall) :
      ReachableIrq K s → c.mode = LuaArg.function → Fresh s c.newRef →
      ReachableIrq K (l_gpio_setup K s c).state
  | close (s : State) (pin hw : Int) :
      ReachableIrq K s → ReachableIrq K (l_gpio_close s pin hw).state

/-- The record a `luat_gpio_setup` call was made with. -/
def Event.hwConf : Event → Option luat_gpio_t
  | Event.luat_gpio_setup conf => some conf
  | _ => none

/-- Sequences of `gpio.close` calls and of `gpio.setup` calls that are in
interrupt mode, on a pin other than 0, retain a fresh handle and push 1. -/
def irqSuccessRun (K : GpioConsts) : State → List Call → Prop
  | _, [] => True
  | s, c :: cs =>
    (match c with
      | Call.setup sc =>
        sc.mode = LuaArg.function ∧ sc.pin ≠ 0 ∧ Fresh s sc.newRef ∧
          (l_gpio_setup K s sc).pushed = [1]
      | Call.close _ _ => True
      | Call.dispatch _ _ => False) ∧ irqSuccessRun K (step K s c).state cs

/-- Decision procedure for `irqSuccessRun`. -/
def irqSuccessRun.dec (K : GpioConsts) :
    (cs : List Call) → (s : State) → Decidable (irqSuccessRun K s cs)
  | [], _ => isTrue trivial
  | Call.setup sc :: cs, s =>
    @instDecidableAnd _ _
      (inferInstanceAs (Decidable (sc.mode = LuaArg.function ∧ sc.pin ≠ 0 ∧
        Fresh s sc.newRef ∧ (l_gpio_setup K s sc).pushed = [1])))
      (irqSuccessRun.dec K cs (step K s (Call.setup sc)).state)
  | Call.close p hw :: cs, s =>
    @instDecidableAnd _ _ (isTrue trivial)
      (irqSuccessRun.dec K cs (step K s (Call.close p hw)).state)
  | Call.dispatch p x :: cs, s =>
    @instDecidableAnd _ _ (isFalse not_false)
      (irqSuccessRun.dec K cs (step K s (Call.dispatch p x)).state)

instance (K : GpioConsts) (s : State) (cs : List Call) : Decidable (irqSuccessRun K s cs) :=
  irqSuccessRun.dec K cs s

/-- One assignment of the header constants, used to run the code on concrete
inputs.  No general theorem depends on these values. -/
def sampleConsts : GpioConsts :=
  { Luat_GPIO_OUTPUT := 0, Luat_GPIO_INPUT := 1, Luat_GPIO_IRQ := 2,
    Luat_GPIO_DEFAULT := 0, Luat_GPIO_BOTH := 2 }

/-- The call `gpio.setup(pin, f)` with a function `f`, for which `luaL_ref`
returns `h` and the hardware reports success. -/
def irqSetup (pin h : Int) : SetupCall :=
  { pin := pin, mode := LuaArg.function, pull := none, irq := none, newRef := h, hwResult := 0 }

/-- The state after `gpio.setup(5, f1)`, `gpio.setup(6, f2)`, `gpio.close(5)`:
slot 0 is empty again and pin 6 sits in slot 1. -/
def dupState : State :=
  (run sampleConsts State.init
    [Call.setup (irqSetup 5 1), Call.setup (irqSetup 6 2), Call.close 5 0]).1

/-- The call `gpio.setup(5, f)` for which the hardware reports failure. -/
def failedIrqSetup : SetupCall :=
  { pin := 5, mode := LuaArg.function, pull := none, irq := none, newRef := 1, hwResult := 1 }

/-- The call `gpio.setup(17, nil)`: input mode, hardware success. -/
def inputSetup17 : SetupCall :=
  { pin := 17, mode := LuaArg.other, pull := none, irq := none, newRef := 0, hwResult := 0 }

/-- A state whose 16 slots hold the pins 1 to 16 with the handles 101 to 116. -/
def fullState : State :=
  { irq_cbs := ⟨(List.range 16).map (fun i => { pin := (i : Int) + 1, lua_ref := (i : Int) + 101 }),
      by decide⟩
    registry := (List.range 16).map (fun i => (i : Int) + 101) }

/-- The call `gpio.setup(17, 0)`: output mode, hardware success. -/
def outputSetup17 : SetupCall :=
  { pin := 17, mode := LuaArg.integer 0, pull := none, irq := none, newRef := 0, hwResult := 0 }

/-- The state after `gpio.setup(17, nil)` on the empty table: slot 0 holds pin 17
without a callback. -/
def inputState17 : State :=
  (l_gpio_setup sampleConsts State.init inputSetup17).state

/-- The run that hands a released key out again: set up pin 5 with key 1, close
pin 5, set up pin 6 with key 1, dispatch an event of pin 6, close pin 6. -/
def reuseRun : List Call :=
  [Call.setup (irqSetup 5 1), Call.close 5 0, Call.setup (irqSetup 6 1), Call.dispatch 6 9,
    Call.close 6 0]

/-- The call `gpio.setup(pin, 0)`: output mode, hardware success. -/
def outputSetup (pin : Int) : SetupCall :=
  { pin := pin, mode := LuaArg.integer 0, pull := none, irq := none, newRef := 0, hwResult := 0 }

/-- Sixteen output-mode calls `gpio.setup(i, 0)`, for the pins 1 to 16. -/
def outputRun16 : List Call :=
  (List.range 16).map (fun i => Call.setup (outputSetup ((i : Int) + 1)))

/-! ## Theorems -/

/-! ### The registry of live handles -/

theorem regAfter_nil (reg : List Int) : regAfter reg [] = reg := rfl

theorem regAfter_cons (reg : List Int) (ev : Event) (evs : List Event) :
    regAfter reg (ev :: evs) = regAfter (regStep reg ev) evs := rfl

theorem regAfter_append (reg : List Int) (a b : List Event) :
    regAfter reg (a ++ b) = regAfter (regAfter reg a) b := by
  simp [regAfter, List.foldl_append]

/-- A live handle stays live along calls that do not release it. -/
theorem mem_regAfter_of_no_unref (h : Int) (evs : List Event) (reg : List Int)
    (hreg : h ∈ reg) (hev : Event.luaL_unref h ∉ evs) : h ∈ regAfter reg evs := by
  induction evs generalizing reg with
  | nil => simpa [regAfter_nil] using hreg
  | cons ev evs ih =>
    rw [regAfter_cons]
    have hev2 : Event.luaL_unref h ∉ evs := fun hm => hev (List.mem_cons_of_mem ev hm)
    apply ih _ _ hev2
    cases ev with
    | luaL_ref k => simp [regStep, hreg]
    | luaL_unref k =>
      have hk : h ≠ k := by
        rintro rfl
        exact hev (List.mem_cons_self _ _)
      simp [regStep, hk, hreg]
    | luat_gpio_setup conf => simpa [regStep] using hreg
    | luat_gpio_close pin => simpa [regStep] using hreg
    | luat_gpio_get pin => simpa [regStep] using hreg
    | luat_log_warn => simpa [regStep] using hreg
    | lua_call k a => simpa [regStep] using hreg

/-- A handle that is not live stays so along calls that do not retain it. -/
theorem not_mem_regAfter (h : Int) (evs : List Event) (reg : List Int)
    (hreg : h ∉ reg) (hev : Event.luaL_ref h ∉ evs) : h ∉ regAfter reg evs := by
  induction evs generalizing reg with
  | nil => simpa [regAfter_nil] using hreg
  | cons ev evs ih =>
    rw [regAfter_cons]
    have hev2 : Event.luaL_ref h ∉ evs := fun hm => hev (List.mem_cons_of_mem ev hm)
    apply ih _ _ hev2
    cases ev with
    | luaL_ref k =>
      have hk : h ≠ k := by
        rintro rfl
        exact hev (List.mem_cons_self _ _)
      simp [regStep, hk, hreg]
    | luaL_unref k => simp [regStep, hreg]
    | luat_gpio_setup conf => simpa [regStep] using hreg
    | luat_gpio_close pin => simpa [regStep] using hreg
    | luat_gpio_get pin => simpa [regStep] using hreg
    | luat_log_warn => simpa [regStep] using hreg
    | lua_call k a => simpa [regStep] using hreg

/-- After a release that no retain of the same key accompanies, the handle is not live. -/
theorem not_mem_regAfter_of_unref (h : Int) (evs : List Event) (reg : List Int)
    (hun : Event.luaL_unref h ∈ evs) (hev : Event.luaL_ref h ∉ evs) :
    h ∉ regAfter reg evs := by
  induction evs generalizing reg with
  | nil => simp at hun
  | cons ev evs ih =>
    rw [regAfter_cons]
    have hev2 : Event.luaL_ref h ∉ evs := fun hm => hev (List.mem_cons_of_mem ev hm)
    rcases List.mem_cons.mp hun with heq | htl
    · subst heq
      apply not_mem_regAfter _ _ _ _ hev2
      simp [regStep]
    · exact ih _ htl hev2

/-- The discipline of a concatenation: the first part, then the second part from the
registry the first part leaves. -/
theorem liveDiscipline_append (reg : List Int) (a b : List Event) :
    liveDiscipline reg (a ++ b) ↔ liveDiscipline reg a ∧ liveDiscipline (regAfter reg a) b := by
  induction a generalizing reg with
  | nil => simp [liveDiscipline, regAfter_nil]
  | cons ev evs ih =>
    cases ev <;> simp [liveDiscipline, regAfter_cons, regStep, ih, and_assoc]

/-- In a disciplined sequence a handle that is not live and is not retained again is
never called. -/
theorem no_call_of_liveDiscipline (h : Int) (evs : List Event) (reg : List Int)
    (hd : liveDiscipline reg evs) (hreg : h ∉ reg) (hev : Event.luaL_ref h ∉ evs) (x : Int) :
    Event.lua_call h x ∉ evs := by
  induction evs generalizing reg with
  | nil => simp
  | cons ev evs ih =>
    have hev2 : Event.luaL_ref h ∉ evs := fun hm => hev (List.mem_cons_of_mem ev hm)
    cases ev with
    | luaL_ref k =>
      have hk : h ≠ k := by
        rintro rfl
        exact hev (List.mem_cons_self _ _)
      simp only [liveDiscipline] at hd
      have := ih (regStep reg (Event.luaL_ref k)) hd (by simp [regStep, hk, hreg]) hev2
      simpa using this
    | luaL_unref k =>
      simp only [liveDiscipline] at hd
      have := ih _ hd.2 (by simp [regStep, hreg]) hev2
      simpa using this
    | luat_gpio_setup conf =>
      simp only [liveDiscipline] at hd
      have := ih _ hd (by simpa [regStep] using hreg) hev2
      simpa using this
    | luat_gpio_close pin =>
      simp only [liveDiscipline] at hd
      have := ih _ hd (by simpa [regStep] using hreg) hev2
      simpa using this
    | luat_gpio_get pin =>
      simp only [liveDiscipline] at hd
      have := ih _ hd (by simpa [regStep] using hreg) hev2
      simpa using this
    | luat_log_warn =>
      simp only [liveDiscipline] at hd
      have := ih _ hd (by simpa [regStep] using hreg) hev2
      simpa using this
    | lua_call k a =>
      simp only [liveDiscipline] at hd
      have := ih _ hd.2 hreg hev2
      have hk : h ≠ k := by
        rintro rfl
        exact hreg hd.1
      simp [hk, this]

/-! ### Handles stored in the table -/

theorem tableRefs_cons (e : luat_lib_gpio_cb_t) (l : List luat_lib_gpio_cb_t) :
    tableRefs (e :: l) = if e.lua_ref ≠ 0 then e.lua_ref :: tableRefs l else tableRefs l := by
  unfold tableRefs
  by_cases h : e.lua_ref = 0 <;> simp [h]

/-- Membership in `tableRefs`: a non-zero handle that some entry stores. -/
theorem mem_tableRefs {l : List luat_lib_gpio_cb_t} {h : Int} :
    h ∈ tableRefs l ↔ h ≠ 0 ∧ ∃ e ∈ l, e.lua_ref = h := by
  unfold tableRefs
  simp only [List.mem_filter, List.mem_map, decide_eq_true_eq]
  tauto

theorem tableRefs_filter_sublist (q : luat_lib_gpio_cb_t → Bool) (l : List luat_lib_gpio_cb_t) :
    (tableRefs (l.filter q)).Sublist (tableRefs l) := by
  unfold tableRefs
  exact ((List.filter_sublist l).map _).filter _

/-! ### The loop of `l_gpio_handler` -/

/-- No entry with the pin: the handler loop makes no call. -/
theorem handlerScan_none (reg : List Int) (p x : Int) (l : List luat_lib_gpio_cb_t)
    (h : ∀ e ∈ l, e.pin ≠ p) : handlerScan reg p x l = [] := by
  induction l with
  | nil => rfl
  | cons e rest ih =>
    have he := h e (List.mem_cons_self e rest)
    simp [handlerScan, he, ih (fun a ha => h a (List.mem_cons_of_mem e ha))]

/-- The handler loop calls the handle of the first entry with the pin, when that
handle is live. -/
theorem handlerScan_find (reg : List Int) (p x : Int) (l : List luat_lib_gpio_cb_t)
    (e : luat_lib_gpio_cb_t) (hfind : l.find? (fun a => decide (a.pin = p)) = some e)
    (hlive : e.lua_ref ∈ reg) : handlerScan reg p x l = [Event.lua_call e.lua_ref x] := by
  induction l with
  | nil => simp at hfind
  | cons a rest ih =>
    by_cases ha : a.pin = p
    · simp [List.find?, ha] at hfind
      subst hfind
      simp [handlerScan, ha, registryHolds, hlive]
    · simp [List.find?, ha] at hfind
      simp [handlerScan, ha, ih hfind]

/-- The handler loop calls only live handles and leaves the registry as it is. -/
theorem handlerScan_live (reg : List Int) (p x : Int) (l : List luat_lib_gpio_cb_t) :
    liveDiscipline reg (handlerScan reg p x l) ∧ regAfter reg (handlerScan reg p x l) = reg := by
  induction l with
  | nil => simp [handlerScan, liveDiscipline, regAfter_nil]
  | cons e rest ih =>
    by_cases hp : e.pin = p
    · by_cases hl : e.lua_ref ∈ reg
      · simp [handlerScan, hp, registryHolds, hl, liveDiscipline, regAfter, regStep]
      · simp [handlerScan, hp, registryHolds, hl, liveDiscipline, regAfter]
    · simpa [handlerScan, hp] using ih

/-! ### The loop of `l_gpio_setup` -/

/-- No entry with the pin and no empty slot: the setup loop ends with `flag = 1` and
the table untouched. -/
theorem setupScan_full (pin ref : Int) (l : List luat_lib_gpio_cb_t)
    (h : ∀ e ∈ l, e.pin ≠ 0 ∧ e.pin ≠ pin) : setupScan pin ref l = (l, [], 1) := by
  induction l with
  | nil => rfl
  | cons e rest ih =>
    have he := h e (List.mem_cons_self e rest)
    have hrest := ih (fun a ha => h a (List.mem_cons_of_mem e ha))
    simp [setupScan, he.1, he.2, hrest]

theorem setupRefEvents_noClose (c : SetupCall) :
    (setupRefEvents c).filter Event.isHwClose = [] := by
  unfold setupRefEvents
  cases c.mode <;> simp [Event.isHwClose]

/-- The setup loop keeps the stored handles distinct; every handle stored afterwards
is the new one or an old one that was not released; at most one handle is released,
and it was stored before. -/
theorem setupScan_inv (pin ref : Int) (l : List luat_lib_gpio_cb_t)
    (hnd : (tableRefs l).Nodup) (hfresh : ref ≠ 0 → ref ∉ tableRefs l) :
    (tableRefs (setupScan pin ref l).1).Nodup ∧
    (∀ h ∈ tableRefs (setupScan pin ref l).1,
        h = ref ∨ (h ∈ tableRefs l ∧ Event.luaL_unref h ∉ (setupScan pin ref l).2.1)) ∧
    ((setupScan pin ref l).2.1 = [] ∨
        ∃ old ∈ tableRefs l, (setupScan pin ref l).2.1 = [Event.luaL_unref old]) := by
  induction l with
  | nil => simp [setupScan, tableRefs]
  | cons e rest ih =>
    have hndrest : (tableRefs rest).Nodup := by
      rw [tableRefs_cons] at hnd
      split_ifs at hnd
      · exact (List.nodup_cons.mp hnd).2
      · exact hnd
    have hfrest : ref ≠ 0 → ref ∉ tableRefs rest := by
      intro h0 hm
      apply hfresh h0
      rw [tableRefs_cons]
      split_ifs
      · exact List.mem_cons_of_mem _ hm
      · exact hm
    have hsubrest : ∀ h ∈ tableRefs rest, h ∈ tableRefs (e :: rest) := by
      intro h hm
      rw [tableRefs_cons]
      split_ifs
      · exact List.mem_cons_of_mem _ hm
      · exact hm
    have herest : e.lua_ref ≠ 0 → e.lua_ref ∉ tableRefs rest := by
      intro h0
      rw [tableRefs_cons, if_pos h0] at hnd
      exact (List.nodup_cons.mp hnd).1
    have heself : e.lua_ref ≠ 0 → e.lua_ref ∈ tableRefs (e :: rest) := by
      intro h0
      rw [tableRefs_cons, if_pos h0]
      exact List.mem_cons_self _ _
    have hnew : (tableRefs ({ pin := pin, lua_ref := ref } :: rest)).Nodup ∧
        ∀ h ∈ tableRefs ({ pin := pin, lua_ref := ref } :: rest), h = ref ∨ h ∈ tableRefs rest := by
      rw [tableRefs_cons]
      by_cases h0 : ref = 0
      · simp only [h0, ne_eq, not_true_eq_false, if_false]
        exact ⟨hndrest, fun h hm => Or.inr hm⟩
      · simp only [ne_eq, h0, not_false_eq_true, if_true, List.nodup_cons, List.mem_cons]
        exact ⟨⟨hfrest h0, hndrest⟩, fun h hm => hm⟩
    by_cases hp : e.pin = pin
    · by_cases hr : e.lua_ref ≠ 0 ∧ e.lua_ref ≠ ref
      · have hscan : setupScan pin ref (e :: rest) =
            ({ pin := e.pin, lua_ref := ref } :: rest, [Event.luaL_unref e.lua_ref], 0) := by
          simp only [setupScan, hp, if_true, if_pos hr]
        rw [hscan]
        have hnew2 : (tableRefs ({ pin := e.pin, lua_ref := ref } :: rest)).Nodup ∧
            ∀ h ∈ tableRefs ({ pin := e.pin, lua_ref := ref } :: rest),
              h = ref ∨ h ∈ tableRefs rest := by
          rw [hp]
          exact hnew
        refine ⟨hnew2.1, ?_, Or.inr ⟨e.lua_ref, heself hr.1, rfl⟩⟩
        intro h hm
        rcases hnew2.2 h hm with h1 | h1
        · exact Or.inl h1
        · refine Or.inr ⟨hsubrest h h1, ?_⟩
          simp only [List.mem_singleton, Event.luaL_unref.injEq]
          rintro rfl
          exact herest hr.1 h1
      · have hscan : setupScan pin ref (e :: rest) = (e :: rest, [], 0) := by
          simp only [setupScan, hp, if_true, if_neg hr]
        rw [hscan]
        exact ⟨hnd, fun h hm => Or.inr ⟨hm, by simp⟩, Or.inl rfl⟩
    · by_cases hz : e.pin = 0
      · have hscan : setupScan pin ref (e :: rest) =
            ({ pin := pin, lua_ref := ref } :: rest, [], 0) := by
          simp only [setupScan, if_neg hp, if_pos hz]
        rw [hscan]
        refine ⟨hnew.1, ?_, Or.inl rfl⟩
        intro h hm
        rcases hnew.2 h hm with h1 | h1
        · exact Or.inl h1
        · exact Or.inr ⟨hsubrest h h1, by simp⟩
      · have hscan : setupScan pin ref (e :: rest) =
            (e :: (setupScan pin ref rest).1, (setupScan pin ref rest).2.1,
              (setupScan pin ref rest).2.2) := by
          simp only [setupScan, if_neg hp, if_neg hz]
        rw [hscan]
        obtain ⟨i1, i2, i3⟩ := ih hndrest hfrest
        have hnoun : e.lua_ref ≠ 0 → Event.luaL_unref e.lua_ref ∉ (setupScan pin ref rest).2.1 := by
          intro h0
          rcases i3 with h3 | ⟨old, hold, h3⟩
          · simp [h3]
          · rw [h3]
            simp only [List.mem_singleton, Event.luaL_unref.injEq]
            rintro rfl
            exact herest h0 hold
        have hne : e.lua_ref ≠ 0 → e.lua_ref ≠ ref := by
          intro h0 heq
          exact hfresh (heq ▸ h0) (heq ▸ heself h0)
        refine ⟨?_, ?_, ?_⟩
        · show (tableRefs (e :: (setupScan pin ref rest).1)).Nodup
          rw [tableRefs_cons]
          split_ifs with h0
          · refine List.nodup_cons.mpr ⟨?_, i1⟩
            intro hm
            rcases i2 _ hm with h1 | h1
            · exact hne h0 h1
            · exact herest h0 h1.1
          · exact i1
        · intro h hm
          change h ∈ tableRefs (e :: (setupScan pin ref rest).1) at hm
          show h = ref ∨ (h ∈ tableRefs (e :: rest) ∧ Event.luaL_unref h ∉ (setupScan pin ref rest).2.1)
          rw [tableRefs_cons] at hm
          split_ifs at hm with h0
          · rcases List.mem_cons.mp hm with h1 | h1
            · subst h1
              exact Or.inr ⟨heself h0, hnoun h0⟩
            · rcases i2 h h1 with h2 | h2
              · exact Or.inl h2
              · exact Or.inr ⟨hsubrest h h2.1, h2.2⟩
          · rcases i2 h hm with h2 | h2
            · exact Or.inl h2
            · exact Or.inr ⟨hsubrest h h2.1, h2.2⟩
        · show (setupScan pin ref rest).2.1 = [] ∨
            ∃ old ∈ tableRefs (e :: rest), (setupScan pin ref rest).2.1 = [Event.luaL_unref old]
          rcases i3 with h3 | ⟨old, hold, h3⟩
          · exact Or.inl h3
          · exact Or.inr ⟨old, hsubrest old hold, h3⟩

/-- With a non-zero new handle the setup loop creates no occupied slot without a
handle. -/
theorem setupScan_occupied (pin ref : Int) (href : ref ≠ 0) (l : List luat_lib_gpio_cb_t)
    (h : ∀ e ∈ l, e.pin ≠ 0 → e.lua_ref ≠ 0) :
    ∀ e ∈ (setupScan pin ref l).1, e.pin ≠ 0 → e.lua_ref ≠ 0 := by
  induction l with
  | nil => simp [setupScan]
  | cons a rest ih =>
    have hrest : ∀ e ∈ rest, e.pin ≠ 0 → e.lua_ref ≠ 0 :=
      fun e he => h e (List.mem_cons_of_mem a he)
    have ha := h a (List.mem_cons_self a rest)
    unfold setupScan
    split_ifs with h1 h2 h3
    · intro e he
      rcases List.mem_cons.mp he with rfl | he
      · exact fun _ => href
      · exact hrest e he
    · exact h
    · intro e he
      rcases List.mem_cons.mp he with rfl | he
      · exact fun _ => href
      · exact hrest e he
    · intro e he
      rcases List.mem_cons.mp he with rfl | he
      · exact ha
      · exact ih hrest e he

/-- Registry after the first two outside calls of `l_gpio_setup`: old handles stay
live, and a non-zero `conf.lua_ref` is live now and was not before. -/
theorem setup_reg0 (K : GpioConsts) (s : State) (c : SetupCall) (hadm : c.admissible s) :
    (∀ h ∈ s.registry,
        h ∈ regAfter s.registry (setupRefEvents c ++ [Event.luat_gpio_setup (setupConf K c)])) ∧
    ((setupConf K c).lua_ref ≠ 0 →
        (setupConf K c).lua_ref ∈
          regAfter s.registry (setupRefEvents c ++ [Event.luat_gpio_setup (setupConf K c)]) ∧
        (setupConf K c).lua_ref ∉ s.registry) ∧
    liveDiscipline s.registry (setupRefEvents c ++ [Event.luat_gpio_setup (setupConf K c)]) := by
  unfold SetupCall.admissible Fresh at hadm
  cases hm : c.mode with
  | function =>
    have := hadm hm
    simp only [setupRefEvents, setupConf, hm, regAfter, regStep, liveDiscipline, List.foldl,
      List.singleton_append, List.mem_cons, true_or, this.2, not_false_eq_true, and_self,
      implies_true, and_true]
    exact fun h hh => Or.inr hh
  | integer v => simp [setupRefEvents, setupConf, hm, regAfter, regStep, liveDiscipline]
  | other => simp [setupRefEvents, setupConf, hm, regAfter, regStep, liveDiscipline]

/-! ### The loop of `l_gpio_close` -/

/-- Table after the close loop: the entries with the pin are cleared, the others kept. -/
theorem closeScan_table (p : Int) (l : List luat_lib_gpio_cb_t) :
    (closeScan p l).1 =
      l.map (fun e => if e.pin = p then ({ pin := 0, lua_ref := 0 } : luat_lib_gpio_cb_t) else e) := by
  induction l with
  | nil => rfl
  | cons e rest ih =>
    by_cases hp : e.pin = p
    · by_cases hr : e.lua_ref = 0
      · simp [closeScan, hp, hr, ih]
      · simp [closeScan, hp, hr, ih]
    · simp [closeScan, hp, ih]

/-- Outside calls of the close loop: one release for each handle stored with the
pin, in index order. -/
theorem closeScan_events (p : Int) (l : List luat_lib_gpio_cb_t) :
    (closeScan p l).2 =
      (tableRefs (l.filter (fun e => decide (e.pin = p)))).map Event.luaL_unref := by
  induction l with
  | nil => rfl
  | cons e rest ih =>
    by_cases hp : e.pin = p
    · by_cases hr : e.lua_ref = 0
      · simp [closeScan, hp, hr, ih, tableRefs_cons]
      · simp [closeScan, hp, hr, ih, tableRefs_cons]
    · simp [closeScan, hp, ih]

/-- The close loop releases live handles only and keeps the invariant. -/
theorem closeScan_inv (p : Int) (l : List luat_lib_gpio_cb_t) (reg : List Int)
    (hnd : (tableRefs l).Nodup) (hlive : ∀ h ∈ tableRefs l, h ∈ reg) :
    liveDiscipline reg (closeScan p l).2 ∧ (tableRefs (closeScan p l).1).Nodup ∧
      ∀ h ∈ tableRefs (closeScan p l).1, h ∈ regAfter reg (closeScan p l).2 := by
  induction l generalizing reg with
  | nil => simp [closeScan, liveDiscipline, tableRefs]
  | cons e rest ih =>
    rw [tableRefs_cons] at hnd hlive
    by_cases hr : e.lua_ref = 0
    · simp only [hr, ne_eq, not_true_eq_false, if_false] at hnd hlive
      have := ih reg hnd hlive
      by_cases hp : e.pin = p
      · simpa [closeScan, hp, hr, tableRefs_cons] using this
      · simpa [closeScan, hp, hr, tableRefs_cons] using this
    · simp only [ne_eq, hr, not_false_eq_true, if_true, List.nodup_cons, List.mem_cons,
        forall_eq_or_imp] at hnd hlive
      by_cases hp : e.pin = p
      · have hlive2 : ∀ h ∈ tableRefs rest, h ∈ regStep reg (Event.luaL_unref e.lua_ref) := by
          intro h hh
          have hne : h ≠ e.lua_ref := by
            rintro rfl
            exact hnd.1 hh
          simp [regStep, hlive.2 h hh, hne]
        have := ih _ hnd.2 hlive2
        simpa [closeScan, hp, hr, tableRefs_cons, liveDiscipline, regAfter_cons, hlive.1] using this
      · obtain ⟨h1, h2, h3⟩ := ih reg hnd.2 hlive.2
        have hsub : ∀ h ∈ tableRefs (closeScan p rest).1, h ∈ tableRefs rest := by
          intro h hh
          rw [closeScan_table] at hh
          rw [mem_tableRefs] at hh ⊢
          obtain ⟨h0, a, ha, hae⟩ := hh
          refine ⟨h0, ?_⟩
          rw [List.mem_map] at ha
          obtain ⟨b, hb, hba⟩ := ha
          by_cases hbp : b.pin = p
          · simp [hbp] at hba
            subst hba
            exact absurd hae.symm h0
          · simp [hbp] at hba
            subst hba
            exact ⟨b, hb, hae⟩
        have hnoun : Event.luaL_unref e.lua_ref ∉ (closeScan p rest).2 := by
          rw [closeScan_events]
          intro hm
          rw [List.mem_map] at hm
          obtain ⟨k, hk, hke⟩ := hm
          injection hke with hke
          subst hke
          rw [mem_tableRefs] at hk
          obtain ⟨h0, a, ha, hae⟩ := hk
          exact hnd.1 (mem_tableRefs.mpr ⟨h0, a, List.mem_of_mem_filter ha, hae⟩)
        have hfresh := mem_regAfter_of_no_unref e.lua_ref _ reg hlive.1 hnoun
        refine ⟨?_, ?_, ?_⟩
        · simpa [closeScan, hp] using h1
        · simp only [closeScan, hp, if_false, tableRefs_cons, ne_eq, hr, not_false_eq_true,
            if_true, List.nodup_cons]
          exact ⟨fun hm => hnd.1 (hsub _ hm), h2⟩
        · simp only [closeScan, hp, if_false, tableRefs_cons, ne_eq, hr, not_false_eq_true,
            if_true, List.mem_cons, forall_eq_or_imp]
          exact ⟨hfresh, h3⟩

theorem l_gpio_close_events (s : State) (p hw : Int) :
    (l_gpio_close s p hw).events = Event.luat_gpio_close p ::
      (tableRefs (s.irq_cbs.val.filter (fun e => decide (e.pin = p)))).map Event.luaL_unref := by
  simp [l_gpio_close, Table.closeScan, finish, closeScan_events]

theorem l_gpio_close_table (s : State) (p hw : Int) :
    (l_gpio_close s p hw).state.irq_cbs.val =
      s.irq_cbs.val.map
        (fun e => if e.pin = p then ({ pin := 0, lua_ref := 0 } : luat_lib_gpio_cb_t) else e) := by
  simp [l_gpio_close, Table.closeScan, finish, closeScan_table]

theorem l_gpio_close_no_pin (s : State) (p hw : Int) (hp : p ≠ 0) :
    ∀ e ∈ (l_gpio_close s p hw).state.irq_cbs.val, e.pin ≠ p := by
  intro e he
  rw [l_gpio_close_table, List.mem_map] at he
  obtain ⟨a, _, hae⟩ := he
  by_cases hap : a.pin = p
  · simp only [hap, if_true] at hae
    subst hae
    exact fun h => hp h.symm
  · simp only [hap, if_false] at hae
    subst hae
    exact hap

/-! ### The ownership invariant along executions -/

/-- Every admissible `gpio.setup` keeps the invariant and releases live handles only. -/
theorem l_gpio_setup_inv (K : GpioConsts) (s : State) (c : SetupCall) (hinv : Inv s)
    (hadm : c.admissible s) :
    Inv (l_gpio_setup K s c).state ∧ liveDiscipline s.registry (l_gpio_setup K s c).events := by
  obtain ⟨r1, r2, r3⟩ := setup_reg0 K s c hadm
  by_cases hw : c.hwResult = 0
  · have hfresh : (setupConf K c).lua_ref ≠ 0 → (setupConf K c).lua_ref ∉ tableRefs s.irq_cbs.val :=
      fun h0 hm => (r2 h0).2 (hinv.live _ hm)
    obtain ⟨i1, i2, i3⟩ := setupScan_inv (setupConf K c).pin (setupConf K c).lua_ref
      s.irq_cbs.val hinv.nodup hfresh
    have hlive : ∀ h ∈ tableRefs (setupScan (setupConf K c).pin (setupConf K c).lua_ref
          s.irq_cbs.val).1,
        h ∈ regAfter (regAfter s.registry
            (setupRefEvents c ++ [Event.luat_gpio_setup (setupConf K c)]))
          (setupScan (setupConf K c).pin (setupConf K c).lua_ref s.irq_cbs.val).2.1 := by
      intro h hm
      have h0 : h ≠ 0 := (mem_tableRefs.mp hm).1
      rcases i2 h hm with h1 | h1
      · subst h1
        apply mem_regAfter_of_no_unref _ _ _ (r2 h0).1
        rcases i3 with h3 | ⟨old, hold, h3⟩
        · simp [h3]
        · rw [h3]
          simp only [List.mem_singleton, Event.luaL_unref.injEq]
          rintro rfl
          exact hfresh h0 hold
      · exact mem_regAfter_of_no_unref _ _ _ (r1 h (hinv.live h h1.1)) h1.2
    have hdisc : liveDiscipline (regAfter s.registry
          (setupRefEvents c ++ [Event.luat_gpio_setup (setupConf K c)]))
        (setupScan (setupConf K c).pin (setupConf K c).lua_ref s.irq_cbs.val).2.1 := by
      rcases i3 with h3 | ⟨old, hold, h3⟩
      · simp [h3, liveDiscipline]
      · rw [h3]
        simp only [liveDiscipline, and_true]
        exact r1 old (hinv.live old hold)
    by_cases hflag : (setupScan (setupConf K c).pin (setupConf K c).lua_ref s.irq_cbs.val).2.2 = 0
    · constructor
      · constructor
        · simpa [l_gpio_setup, hw, Table.setupScan, hflag, finish] using i1
        · simpa [l_gpio_setup, hw, Table.setupScan, hflag, finish, regAfter_append] using hlive
      · simp only [l_gpio_setup, hw, Table.setupScan, hflag, finish, if_true, ne_eq,
          not_true_eq_false, if_false]
        rw [liveDiscipline_append]
        exact ⟨r3, hdisc⟩
    · constructor
      · constructor
        · simpa [l_gpio_setup, hw, Table.setupScan, hflag, finish] using i1
        · simpa [l_gpio_setup, hw, Table.setupScan, hflag, finish, regAfter_append,
            regAfter_cons, regAfter_nil, regStep] using hlive
      · simp only [l_gpio_setup, hw, Table.setupScan, hflag, finish, if_true, ne_eq,
          not_false_eq_true]
        rw [liveDiscipline_append, liveDiscipline_append]
        exact ⟨⟨r3, hdisc⟩, by simp [liveDiscipline]⟩
  · constructor
    · constructor
      · simpa [l_gpio_setup, hw, finish] using hinv.nodup
      · simpa [l_gpio_setup, hw, finish] using fun h hm => r1 h (hinv.live h hm)
    · simpa [l_gpio_setup, hw, finish] using r3

/-- Every `gpio.close` keeps the invariant and releases live handles only. -/
theorem l_gpio_close_inv (s : State) (p hw : Int) (hinv : Inv s) :
    Inv (l_gpio_close s p hw).state ∧ liveDiscipline s.registry (l_gpio_close s p hw).events := by
  obtain ⟨h1, h2, h3⟩ := closeScan_inv p s.irq_cbs.val s.registry hinv.nodup hinv.live
  refine ⟨⟨?_, ?_⟩, ?_⟩
  · simpa [l_gpio_close, Table.closeScan, finish] using h2
  · simpa [l_gpio_close, Table.closeScan, finish, regAfter_cons, regStep] using h3
  · simpa [l_gpio_close, Table.closeScan, finish, liveDiscipline, regStep] using h1

theorem Inv_init : Inv State.init := by
  constructor
  · decide
  · decide

/-- Every reachable state satisfies the ownership invariant. -/
theorem Reachable.inv {K : GpioConsts} {s : State} (h : Reachable K s) : Inv s := by
  induction h with
  | init => exact Inv_init
  | setup s c _ hadm ih => exact (l_gpio_setup_inv K s c ih hadm).1
  | close s pin hw _ ih => exact (l_gpio_close_inv s pin hw ih).1

theorem step_registry (K : GpioConsts) (s : State) (c : Call) :
    (step K s c).state.registry = regAfter s.registry (step K s c).events := by
  cases c with
  | setup sc =>
    simp only [step, l_gpio_setup]
    split_ifs <;> rfl
  | close pin hw => rfl
  | dispatch pin arg =>
    simp only [step, l_gpio_handler]
    exact (handlerScan_live s.registry pin arg s.irq_cbs.val).2.symm

theorem step_inv (K : GpioConsts) (s : State) (c : Call) (hinv : Inv s)
    (hadm : match c with
      | Call.setup sc => sc.admissible s
      | _ => True) :
    Inv (step K s c).state ∧ liveDiscipline s.registry (step K s c).events := by
  cases c with
  | setup sc => exact l_gpio_setup_inv K s sc hinv hadm
  | close pin hw => exact l_gpio_close_inv s pin hw hinv
  | dispatch pin arg =>
    exact ⟨hinv, (handlerScan_live s.registry pin arg s.irq_cbs.val).1⟩

/-- An admissible sequence of calls keeps the invariant, and its outside calls are
disciplined. -/
theorem run_inv (K : GpioConsts) (cs : List Call) (s : State) (hinv : Inv s)
    (hadm : admissibleRun K s cs) :
    Inv (run K s cs).1 ∧ liveDiscipline s.registry (run K s cs).2 := by
  induction cs generalizing s with
  | nil => exact ⟨hinv, trivial⟩
  | cons c cs ih =>
    obtain ⟨h1, h2⟩ := step_inv K s c hinv hadm.1
    obtain ⟨h3, h4⟩ := ih (step K s c).state h1 hadm.2
    refine ⟨h3, ?_⟩
    show liveDiscipline s.registry ((step K s c).events ++ (run K (step K s c).state cs).2)
    rw [liveDiscipline_append, ← step_registry]
    exact ⟨h2, h4⟩

theorem admissibleRun_append (K : GpioConsts) (a b : List Call) (s : State) :
    admissibleRun K s (a ++ b) ↔ admissibleRun K s a ∧ admissibleRun K (run K s a).1 b := by
  induction a generalizing s with
  | nil => simp [admissibleRun, run]
  | cons c cs ih => simp [admissibleRun, run, ih, and_assoc]

theorem ReachableIrq.reachable {K : GpioConsts} {s : State} (h : ReachableIrq K s) :
    Reachable K s := by
  induction h with
  | init => exact Reachable.init
  | setup s c _ _ hf ih => exact Reachable.setup s c ih (fun _ => hf)
  | close s pin hw _ ih => exact Reachable.close s pin hw ih

/-- Under interrupt-mode set-ups and closes every occupied slot stores a handle. -/
theorem ReachableIrq.occupied {K : GpioConsts} {s : State} (h : ReachableIrq K s) :
    ∀ e ∈ s.irq_cbs.val, e.pin ≠ 0 → e.lua_ref ≠ 0 := by
  induction h with
  | init =>
    intro e he
    have : e = { pin := 0, lua_ref := 0 } := List.eq_of_mem_replicate he
    subst this
    simp
  | setup s c _ hm hf ih =>
    have href : (setupConf K c).lua_ref ≠ 0 := by
      simp only [setupConf, hm]
      exact hf.1
    by_cases hw : c.hwResult = 0
    · have := setupScan_occupied (setupConf K c).pin _ href s.irq_cbs.val ih
      simp only [l_gpio_setup, hw, if_true, Table.setupScan]
      split_ifs <;> exact this
    · simpa [l_gpio_setup, hw, finish] using ih
  | close s pin hw _ ih =>
    intro e he
    rw [l_gpio_close_table, List.mem_map] at he
    obtain ⟨a, ha, hae⟩ := he
    by_cases hap : a.pin = pin
    · simp only [hap, if_true] at hae
      subst hae
      simp
    · simp only [hap, if_false] at hae
      subst hae
      exact ih a ha

/-- The state `dupState` is reachable: three calls from start-up, each handle fresh. -/
theorem dupState_reachable : Reachable sampleConsts dupState :=
  Reachable.close _ 5 0
    (Reachable.setup _ (irqSetup 6 2)
      (Reachable.setup _ (irqSetup 5 1) Reachable.init (by decide)) (by decide))

/-! ### Outcomes of `l_gpio_setup`, empty slots, and interrupt-only runs -/

/-- The setup loop makes no outside call, or the one release of a handle. -/
theorem setupScan_events (pin ref : Int) (l : List luat_lib_gpio_cb_t) :
    (setupScan pin ref l).2.1 = [] ∨
      ∃ old, (setupScan pin ref l).2.1 = [Event.luaL_unref old] := by
  induction l with
  | nil => exact Or.inl rfl
  | cons e rest ih =>
    unfold setupScan
    split_ifs
    · exact Or.inr ⟨e.lua_ref, rfl⟩
    · exact Or.inl rfl
    · exact Or.inl rfl
    · exact ih

/-- The setup loop ends with `flag = 0` when some entry has the pin or is
empty. -/
theorem setupScan_flag_of_slot (pin ref : Int) (l : List luat_lib_gpio_cb_t)
    (h : ∃ e ∈ l, e.pin = pin ∨ e.pin = 0) : (setupScan pin ref l).2.2 = 0 := by
  induction l with
  | nil => simp at h
  | cons a rest ih =>
    unfold setupScan
    split_ifs with h1 h2 h3
    · rfl
    · rfl
    · rfl
    · obtain ⟨e, he, hpe⟩ := h
      rcases List.mem_cons.mp he with rfl | he
      · rcases hpe with hpe | hpe
        · exact absurd hpe h1
        · exact absurd hpe h3
      · exact ih ⟨e, he, hpe⟩

/-- Outcome of `l_gpio_setup` on a table without a slot for the pin, after a
successful hardware call. -/
theorem l_gpio_setup_of_full (K : GpioConsts) (s : State) (c : SetupCall)
    (hw : c.hwResult = 0) (hfull : ∀ e ∈ s.irq_cbs.val, e.pin ≠ 0 ∧ e.pin ≠ c.pin) :
    l_gpio_setup K s c = finish s s.irq_cbs
      (setupRefEvents c ++ [Event.luat_gpio_setup (setupConf K c), Event.luat_log_warn,
        Event.luat_gpio_close c.pin]) 1 [0] := by
  have hscan := setupScan_full c.pin (setupConf K c).lua_ref s.irq_cbs.val hfull
  have hpin : (setupConf K c).pin = c.pin := rfl
  have hT : Table.setupScan c.pin (setupConf K c).lua_ref s.irq_cbs = (s.irq_cbs, [], 1) := by
    simp only [Table.setupScan]
    ext <;> simp [hscan]
  simp [l_gpio_setup, hw, hpin, hT]

/-- Outcome of `l_gpio_setup` when the loop finds a slot, after a successful
hardware call. -/
theorem l_gpio_setup_of_slot (K : GpioConsts) (s : State) (c : SetupCall)
    (hw : c.hwResult = 0) (hslot : ∃ e ∈ s.irq_cbs.val, e.pin = c.pin ∨ e.pin = 0) :
    l_gpio_setup K s c = finish s (Table.setupScan c.pin (setupConf K c).lua_ref s.irq_cbs).1
      (setupRefEvents c ++ [Event.luat_gpio_setup (setupConf K c)] ++
        (setupScan c.pin (setupConf K c).lua_ref s.irq_cbs.val).2.1) 1 [1] := by
  have hflag := setupScan_flag_of_slot c.pin (setupConf K c).lua_ref s.irq_cbs.val hslot
  have hpin : (setupConf K c).pin = c.pin := rfl
  simp [l_gpio_setup, hw, hpin, Table.setupScan, hflag]

/-- Outcome of `l_gpio_setup` after a failed hardware call. -/
theorem l_gpio_setup_of_hw_failure (K : GpioConsts) (s : State) (c : SetupCall)
    (hw : c.hwResult ≠ 0) :
    l_gpio_setup K s c = finish s s.irq_cbs
      (setupRefEvents c ++ [Event.luat_gpio_setup (setupConf K c)]) 1 [0] := by
  simp [l_gpio_setup, hw]

/-- The setup loop makes no `luat_gpio_close` call. -/
theorem setupScan_events_noClose (pin ref : Int) (l : List luat_lib_gpio_cb_t) :
    (setupScan pin ref l).2.1.filter Event.isHwClose = [] := by
  rcases setupScan_events pin ref l with h | ⟨old, h⟩
  · simp [h]
  · simp [h, Event.isHwClose]

/-- The setup loop makes no `luat_gpio_setup` call. -/
theorem setupScan_events_noConf (pin ref : Int) (l : List luat_lib_gpio_cb_t) :
    (setupScan pin ref l).2.1.filterMap Event.hwConf = [] := by
  rcases setupScan_events pin ref l with h | ⟨old, h⟩
  · simp [h]
  · simp [h, Event.hwConf]

/-- The `luaL_ref` call is no `luat_gpio_setup` call. -/
theorem setupRefEvents_noConf (c : SetupCall) :
    (setupRefEvents c).filterMap Event.hwConf = [] := by
  unfold setupRefEvents
  cases c.mode <;> simp [Event.hwConf]

/-- Every call of `l_gpio_setup` makes exactly one `luat_gpio_setup` call, with
the record `conf`. -/
theorem l_gpio_setup_hwConf (K : GpioConsts) (s : State) (c : SetupCall) :
    (l_gpio_setup K s c).events.filterMap Event.hwConf = [setupConf K c] := by
  by_cases hw : c.hwResult = 0
  · by_cases hslot : ∃ e ∈ s.irq_cbs.val, e.pin = c.pin ∨ e.pin = 0
    · rw [l_gpio_setup_of_slot K s c hw hslot]
      simp [finish, List.filterMap_append, setupRefEvents_noConf, setupScan_events_noConf,
        Event.hwConf]
    · have hfull : ∀ e ∈ s.irq_cbs.val, e.pin ≠ 0 ∧ e.pin ≠ c.pin := by
        intro e he
        exact ⟨fun h0 => hslot ⟨e, he, Or.inr h0⟩, fun hp => hslot ⟨e, he, Or.inl hp⟩⟩
      rw [l_gpio_setup_of_full K s c hw hfull]
      simp [finish, List.filterMap_append, setupRefEvents_noConf, Event.hwConf]
  · rw [l_gpio_setup_of_hw_failure K s c hw]
    simp [finish, List.filterMap_append, setupRefEvents_noConf, Event.hwConf]

/-- The setup loop keeps empty slots free of handles. -/
theorem setupScan_emptyClean (pin ref : Int) (l : List luat_lib_gpio_cb_t)
    (h : ∀ e ∈ l, e.pin = 0 → e.lua_ref = 0) :
    ∀ e ∈ (setupScan pin ref l).1, e.pin = 0 → e.lua_ref = 0 := by
  induction l with
  | nil => simp [setupScan]
  | cons a rest ih =>
    have hrest : ∀ e ∈ rest, e.pin = 0 → e.lua_ref = 0 :=
      fun e he => h e (List.mem_cons_of_mem a he)
    have ha := h a (List.mem_cons_self a rest)
    unfold setupScan
    split_ifs with h1 h2 h3
    · intro e he
      rcases List.mem_cons.mp he with rfl | he
      · intro hz
        exact absurd (ha hz) h2.1
      · exact hrest e he
    · exact h
    · intro e he
      rcases List.mem_cons.mp he with rfl | he
      · intro hz
        exact absurd (h3.trans hz.symm) h1
      · exact hrest e he
    · intro e he
      rcases List.mem_cons.mp he with rfl | he
      · exact ha
      · exact ih hrest e he

/-- In every reachable state the empty slots hold no handle. -/
theorem Reachable.emptyClean {K : GpioConsts} {s : State} (h : Reachable K s) :
    ∀ e ∈ s.irq_cbs.val, e.pin = 0 → e.lua_ref = 0 := by
  induction h with
  | init =>
    intro e he _
    have : e = { pin := 0, lua_ref := 0 } := List.eq_of_mem_replicate he
    rw [this]
  | setup s c _ _ ih =>
    by_cases hw : c.hwResult = 0
    · have := setupScan_emptyClean (setupConf K c).pin (setupConf K c).lua_ref s.irq_cbs.val ih
      simp only [l_gpio_setup, hw, if_true, Table.setupScan]
      split_ifs <;> exact this
    · rw [l_gpio_setup_of_hw_failure K s c hw]
      exact ih
  | close s pin hw _ ih =>
    intro e he
    rw [l_gpio_close_table, List.mem_map] at he
    obtain ⟨a, ha, hae⟩ := he
    by_cases hap : a.pin = pin
    · simp only [hap, if_true] at hae
      subst hae
      exact fun _ => rfl
    · simp only [hap, if_false] at hae
      subst hae
      exact ih a ha

/-- The close loop changes nothing and releases nothing when the entries with
the pin are empty slots without a handle. -/
theorem closeScan_noop (p : Int) (l : List luat_lib_gpio_cb_t)
    (h : ∀ e ∈ l, e.pin = p → e.pin = 0 ∧ e.lua_ref = 0) : closeScan p l = (l, []) := by
  induction l with
  | nil => rfl
  | cons a rest ih =>
    have hrest := ih (fun e he => h e (List.mem_cons_of_mem a he))
    by_cases hap : a.pin = p
    · obtain ⟨h0, hr⟩ := h a (List.mem_cons_self a rest) hap
      have ha : a = { pin := 0, lua_ref := 0 } := by
        cases a
        simp only [luat_lib_gpio_cb_t.mk.injEq]
        exact ⟨h0, hr⟩
      subst ha
      simp only [closeScan, hrest]
      simp [hap]
    · simp [closeScan, hrest, hap]

/-- Bit 0 of the 32-bit representation of `v` is `v` modulo 2. -/
theorem and0x01_eq (v : Int) : and0x01 v = v % 2 := by
  unfold and0x01
  exact Int.emod_emod_of_dvd v (by decide)

/-- With no entry for the pin in front of the first empty slot, the setup loop
writes the pin and the handle into that slot and nothing else. -/
theorem setupScan_claim (pin ref : Int) (pre post : List luat_lib_gpio_cb_t)
    (e : luat_lib_gpio_cb_t) (hpre : ∀ a ∈ pre, a.pin ≠ pin ∧ a.pin ≠ 0)
    (hep : e.pin ≠ pin) (he0 : e.pin = 0) :
    setupScan pin ref (pre ++ e :: post) =
      (pre ++ { pin := pin, lua_ref := ref } :: post, [], 0) := by
  induction pre with
  | nil => simp only [List.nil_append, setupScan, if_neg hep, if_pos he0]
  | cons a rest ih =>
    have ha := hpre a (List.mem_cons_self a rest)
    have hrest := ih (fun x hx => hpre x (List.mem_cons_of_mem a hx))
    show setupScan pin ref (a :: (rest ++ e :: post)) = _
    simp only [setupScan, if_neg ha.1, if_neg ha.2, hrest, List.cons_append]

/-- Outcome of a successful hardware call for a pin without an entry, when the
table has an empty slot: the lowest-index empty slot is claimed. -/
theorem l_gpio_setup_of_claim (K : GpioConsts) (s : State) (c : SetupCall)
    (pre post : List luat_lib_gpio_cb_t) (e : luat_lib_gpio_cb_t)
    (hw : c.hwResult = 0) (hno : ∀ a ∈ s.irq_cbs.val, a.pin ≠ c.pin)
    (hsplit : s.irq_cbs.val = pre ++ e :: post) (hpre : ∀ a ∈ pre, a.pin ≠ 0)
    (he : e.pin = 0) :
    (l_gpio_setup K s c).pushed = [1] ∧
    (l_gpio_setup K s c).state.irq_cbs.val =
      pre ++ { pin := c.pin, lua_ref := (setupConf K c).lua_ref } :: post ∧
    (l_gpio_setup K s c).events =
      setupRefEvents c ++ [Event.luat_gpio_setup (setupConf K c)] := by
  have hemem : e ∈ s.irq_cbs.val := by
    rw [hsplit]
    exact List.mem_append_right _ (List.mem_cons_self _ _)
  have hpre2 : ∀ a ∈ pre, a.pin ≠ c.pin ∧ a.pin ≠ 0 := by
    intro a ha
    have : a ∈ s.irq_cbs.val := by
      rw [hsplit]
      exact List.mem_append_left _ ha
    exact ⟨hno a this, hpre a ha⟩
  have hscan := setupScan_claim c.pin (setupConf K c).lua_ref pre post e hpre2 (hno e hemem) he
  rw [← hsplit] at hscan
  rw [l_gpio_setup_of_slot K s c hw ⟨e, hemem, Or.inr he⟩]
  simp [finish, Table.setupScan, hscan]

/-- The state `inputState17` is reachable. -/
theorem inputState17_reachable : Reachable sampleConsts inputState17 :=
  Reachable.setup _ inputSetup17 Reachable.init (by decide)

/-- The conditions of `irqSuccessRun` include those of `admissibleRun`. -/
theorem irqSuccessRun.admissible {K : GpioConsts} {cs : List Call} {s : State}
    (h : irqSuccessRun K s cs) : admissibleRun K s cs := by
  induction cs generalizing s with
  | nil => trivial
  | cons c cs ih =>
    refine ⟨?_, ih h.2⟩
    cases c with
    | setup sc => exact fun _ => h.1.2.2.1
    | close p hw => trivial
    | dispatch p x => trivial

/-- The outside calls of the handler are the call of the looked-up key, when the
registry holds a value under it, and nothing otherwise. -/
theorem handlerScan_eq_lookup (reg : List Int) (p x : Int) (l : List luat_lib_gpio_cb_t) :
    handlerScan reg p x l =
      match handlerLookup p l with
      | some k => if registryHolds reg k then [Event.lua_call k x] else []
      | none => [] := by
  induction l with
  | nil => rfl
  | cons e rest ih =>
    by_cases hp : e.pin = p
    · simp [handlerScan, handlerLookup, hp]
    · simp only [handlerScan, handlerLookup, if_neg hp, ih]

/-- The key the handler looks up is the handle of an entry of the table. -/
theorem handlerLookup_mem (p k : Int) (l : List luat_lib_gpio_cb_t)
    (h : handlerLookup p l = some k) : ∃ e ∈ l, e.pin = p ∧ e.lua_ref = k := by
  induction l with
  | nil => simp [handlerLookup] at h
  | cons e rest ih =>
    by_cases hp : e.pin = p
    · simp only [handlerLookup, if_pos hp, Option.some.injEq] at h
      exact ⟨e, List.mem_cons_self _ _, hp, h⟩
    · simp only [handlerLookup, if_neg hp] at h
      obtain ⟨a, ha, hpa⟩ := ih h
      exact ⟨a, List.mem_cons_of_mem _ ha, hpa⟩

/-- In a disciplined sequence that starts without `h` being live, every call of
`h` is preceded by a `luaL_ref` that hands out `h`. -/
theorem ref_before_call_of_liveDiscipline (h x : Int) (reg : List Int) (a b : List Event)
    (hd : liveDiscipline reg (a ++ Event.lua_call h x :: b)) (hreg : h ∉ reg) :
    Event.luaL_ref h ∈ a := by
  by_contra hno
  rw [liveDiscipline_append] at hd
  have hlive : h ∈ regAfter reg a := by
    have := hd.2
    simp only [liveDiscipline] at this
    exact this.1
  exact not_mem_regAfter h a reg hreg hno hlive

/-! ## The claims -/

/-- C1 (the code at the failing input): in the reachable state `dupState` the
call `gpio.setup(6, f3)` with the fresh handle 3 reports success, and afterwards
two entries have pin 6: slot 0 with handle 3 and slot 1 with the old handle 2. -/
theorem setup_success_leaves_two_entries :
    Reachable sampleConsts dupState ∧ (irqSetup 6 3).admissible dupState ∧
    (l_gpio_setup sampleConsts dupState (irqSetup 6 3)).pushed = [1] ∧
    (l_gpio_setup sampleConsts dupState (irqSetup 6 3)).state.irq_cbs.val.filter
        (fun e => decide (e.pin = 6)) =
      [{ pin := 6, lua_ref := 3 }, { pin := 6, lua_ref := 2 }] :=
  ⟨dupState_reachable, by decide, by decide, by decide⟩

/-- C2 (the code at the failing input): the state reached by `gpio.setup(5, f1)`,
`gpio.setup(6, f2)`, `gpio.close(5)`, `gpio.setup(6, f3)` holds pin 6 in slot 0
and in slot 1. -/
theorem reachable_table_with_duplicate_pin :
    Reachable sampleConsts (l_gpio_setup sampleConsts dupState (irqSetup 6 3)).state ∧
    (l_gpio_setup sampleConsts dupState (irqSetup 6 3)).state.irq_cbs.val[0]? =
      some { pin := 6, lua_ref := 3 } ∧
    (l_gpio_setup sampleConsts dupState (irqSetup 6 3)).state.irq_cbs.val[1]? =
      some { pin := 6, lua_ref := 2 } :=
  ⟨Reachable.setup _ _ dupState_reachable (by decide), by decide, by decide⟩

/-- C3 (the code at the failing input): in the reachable state `dupState` pin 6
has an entry holding handle 2; the successful `gpio.setup(6, f3)` with handle 3
makes the two outside calls `luaL_ref` and `luat_gpio_setup` only, so handle 2 is
not released, and two entries with pin 6 remain. -/
theorem setup_replace_skips_release :
    Reachable sampleConsts dupState ∧
    { pin := 6, lua_ref := 2 } ∈ dupState.irq_cbs.val ∧
    (irqSetup 6 3).admissible dupState ∧
    (l_gpio_setup sampleConsts dupState (irqSetup 6 3)).pushed = [1] ∧
    (l_gpio_setup sampleConsts dupState (irqSetup 6 3)).events =
      [Event.luaL_ref 3, Event.luat_gpio_setup (setupConf sampleConsts (irqSetup 6 3))] ∧
    ((l_gpio_setup sampleConsts dupState (irqSetup 6 3)).state.irq_cbs.val.filter
        (fun e => decide (e.pin = 6))).length = 2 :=
  ⟨dupState_reachable, by decide, by decide, by decide, by decide, by decide⟩

/-- C4: when every slot of the table holds a non-zero pin other than the
requested one and the hardware configure call succeeds, `gpio.setup` pushes 0,
calls `luat_gpio_close` exactly once, on the requested pin, and leaves all 16
entries as they were.  (The hypothesis on the slots already excludes nothing for
a requested pin of 0, so no separate `pin ≠ 0` is needed.) -/
theorem setup_full_table_rolls_back (K : GpioConsts) (s : State) (c : SetupCall)
    (hfull : ∀ e ∈ s.irq_cbs.val, e.pin ≠ 0 ∧ e.pin ≠ c.pin) (hw : c.hwResult = 0) :
    (l_gpio_setup K s c).pushed = [0] ∧
    (l_gpio_setup K s c).events.filter Event.isHwClose = [Event.luat_gpio_close c.pin] ∧
    (l_gpio_setup K s c).state.irq_cbs = s.irq_cbs := by
  have hscan := setupScan_full c.pin (setupConf K c).lua_ref s.irq_cbs.val hfull
  have hpin : (setupConf K c).pin = c.pin := rfl
  have hT : Table.setupScan c.pin (setupConf K c).lua_ref s.irq_cbs = (s.irq_cbs, [], 1) := by
    simp only [Table.setupScan]
    ext <;> simp [hscan]
  simp [l_gpio_setup, hw, hpin, hT, finish, setupRefEvents_noClose, Event.isHwClose]

/-- The preceding theorem on the full table `fullState`, for pin 17. -/
theorem setup_full_table_rolls_back_witness :
    (∀ e ∈ fullState.irq_cbs.val, e.pin ≠ 0 ∧ e.pin ≠ (irqSetup 17 1).pin) ∧
    (irqSetup 17 1).hwResult = 0 ∧
    ((l_gpio_setup sampleConsts fullState (irqSetup 17 1)).pushed = [0] ∧
      (l_gpio_setup sampleConsts fullState (irqSetup 17 1)).events.filter Event.isHwClose =
        [Event.luat_gpio_close (irqSetup 17 1).pin] ∧
      (l_gpio_setup sampleConsts fullState (irqSetup 17 1)).state.irq_cbs =
        fullState.irq_cbs) :=
  ⟨by decide, rfl,
    setup_full_table_rolls_back sampleConsts fullState (irqSetup 17 1) (by decide) rfl⟩

/-- C5: in every reachable state, for every pin `p ≠ 0` with an entry holding a
handle `h ≠ 0`: after `gpio.close(p)` no entry has pin `p`, the call has made
exactly one `luaL_unref` of `h`, and a following dispatch for `p` makes no
outside call at all, whatever its argument. -/
theorem close_removes_entry_and_releases_once (K : GpioConsts) (s : State)
    (hr : Reachable K s) (p h : Int) (hp : p ≠ 0) (hh : h ≠ 0)
    (hmem : { pin := p, lua_ref := h } ∈ s.irq_cbs.val) (hw : Int) :
    (∀ e ∈ (l_gpio_close s p hw).state.irq_cbs.val, e.pin ≠ p) ∧
    (l_gpio_close s p hw).events.count (Event.luaL_unref h) = 1 ∧
    ∀ x, (l_gpio_handler (l_gpio_close s p hw).state p x).events = [] := by
  have hnone := l_gpio_close_no_pin s p hw hp
  refine ⟨hnone, ?_, ?_⟩
  · rw [l_gpio_close_events]
    have hinj : Function.Injective Event.luaL_unref := fun a b hab => by
      injection hab
    rw [List.count_cons_of_ne (by simp), List.count_map_of_injective _ _ hinj]
    apply List.count_eq_one_of_mem
    · exact (Reachable.inv hr).nodup.sublist (tableRefs_filter_sublist _ _)
    · rw [mem_tableRefs]
      exact ⟨hh, _, List.mem_filter.mpr ⟨hmem, by simp⟩, rfl⟩
  · intro x
    simp [l_gpio_handler, handlerScan_none _ p x _ hnone]

/-- The preceding theorem after `gpio.setup(5, f)` with handle 1, for pin 5. -/
theorem close_removes_entry_and_releases_once_witness :
    (5 : Int) ≠ 0 ∧ (1 : Int) ≠ 0 ∧
    ((∀ e ∈ (l_gpio_close (l_gpio_setup sampleConsts State.init (irqSetup 5 1)).state
        5 0).state.irq_cbs.val, e.pin ≠ 5) ∧
      (l_gpio_close (l_gpio_setup sampleConsts State.init (irqSetup 5 1)).state
        5 0).events.count (Event.luaL_unref 1) = 1 ∧
      ∀ x, (l_gpio_handler (l_gpio_close (l_gpio_setup sampleConsts State.init
        (irqSetup 5 1)).state 5 0).state 5 x).events = []) :=
  ⟨by decide, by decide,
    close_removes_entry_and_releases_once sampleConsts
      (l_gpio_setup sampleConsts State.init (irqSetup 5 1)).state
      (Reachable.setup _ _ Reachable.init (by decide)) 5 1 (by decide) (by decide)
      (by decide) 0⟩

/-- C6: for every table in which the lowest-index entry with pin `p` holds a live
handle `h`, the dispatch of `(p, x)` makes exactly one outside call, the call of
`h` with argument `x`.  And from the empty table, after successful interrupt
set-ups of pin 5 and then pin 6 with distinct handles, the dispatch of `(6, 42)`
calls only pin 6's handle, with argument 42, and never pin 5's handle. -/
theorem dispatch_invokes_first_matching_entry (K : GpioConsts) :
    (∀ (s : State) (p x h : Int) (e : luat_lib_gpio_cb_t),
        s.irq_cbs.val.find? (fun a => decide (a.pin = p)) = some e →
        e.lua_ref = h → registryHolds s.registry h = true →
        (l_gpio_handler s p x).events = [Event.lua_call h x]) ∧
    (∀ c5 c6 : SetupCall,
        c5.pin = 5 → c5.mode = LuaArg.function → c5.hwResult = 0 →
        c6.pin = 6 → c6.mode = LuaArg.function → c6.hwResult = 0 →
        c5.newRef ≠ c6.newRef →
        (l_gpio_setup K State.init c5).pushed = [1] ∧
        (l_gpio_setup K (l_gpio_setup K State.init c5).state c6).pushed = [1] ∧
        (l_gpio_handler (l_gpio_setup K (l_gpio_setup K State.init c5).state c6).state
            6 42).events = [Event.lua_call c6.newRef 42] ∧
        ∀ y, Event.lua_call c5.newRef y ∉
          (l_gpio_handler (l_gpio_setup K (l_gpio_setup K State.init c5).state c6).state
            6 42).events) := by
  constructor
  · intro s p x h e hfind href hlive
    subst href
    simp only [registryHolds, decide_eq_true_eq] at hlive
    simp [l_gpio_handler, handlerScan_find s.registry p x s.irq_cbs.val e hfind hlive]
  · intro c5 c6 p5 m5 w5 p6 m6 w6 hne
    have hempty : Table.empty.val =
        { pin := 0, lua_ref := 0 } :: { pin := 0, lua_ref := 0 } ::
          List.replicate 14 { pin := 0, lua_ref := 0 } := rfl
    simp [l_gpio_setup, Table.setupScan, finish, setupScan, setupConf, setupRefEvents,
      State.init, hempty, p5, m5, w5, p6, m6, w6, l_gpio_handler, handlerScan, registryHolds,
      regAfter, regStep, hne]

/-- The preceding theorem with the handles 1 and 2 for the pins 5 and 6. -/
theorem dispatch_invokes_first_matching_entry_witness :
    ((l_gpio_setup sampleConsts (l_gpio_setup sampleConsts State.init
        (irqSetup 5 1)).state (irqSetup 6 2)).state.irq_cbs.val.find?
          (fun a => decide (a.pin = 6)) = some { pin := 6, lua_ref := 2 } ∧
      (l_gpio_handler (l_gpio_setup sampleConsts (l_gpio_setup sampleConsts State.init
        (irqSetup 5 1)).state (irqSetup 6 2)).state 6 42).events = [Event.lua_call 2 42]) ∧
    ((1 : Int) ≠ 2 ∧
      ∀ y, Event.lua_call (irqSetup 5 1).newRef y ∉
        (l_gpio_handler (l_gpio_setup sampleConsts (l_gpio_setup sampleConsts State.init
          (irqSetup 5 1)).state (irqSetup 6 2)).state 6 42).events) :=
  ⟨⟨by decide,
      (dispatch_invokes_first_matching_entry sampleConsts).1 _ 6 42 2
        { pin := 6, lua_ref := 2 } (by decide) rfl (by decide)⟩,
    by decide,
    ((dispatch_invokes_first_matching_entry sampleConsts).2 (irqSetup 5 1) (irqSetup 6 2)
      rfl rfl rfl rfl rfl rfl (by decide)).2.2.2⟩

/-- C7: for every table and every pin that no entry holds, `l_gpio_handler`
calls no handle, returns 0 without any outside call, and leaves the state (all
table entries) unchanged. -/
theorem dispatch_unregistered_pin_noop (s : State) (p x : Int)
    (h : ∀ e ∈ s.irq_cbs.val, e.pin ≠ p) :
    l_gpio_handler s p x = { state := s, events := [], ret := 0, pushed := [] } := by
  have hscan := handlerScan_none s.registry p x s.irq_cbs.val h
  unfold l_gpio_handler
  rw [hscan]

/-- The preceding theorem in the state `dupState`, where pin 5 has been closed. -/
theorem dispatch_unregistered_pin_noop_witness :
    (∀ e ∈ dupState.irq_cbs.val, e.pin ≠ 5) ∧
    l_gpio_handler dupState 5 1 = { state := dupState, events := [], ret := 0, pushed := [] } :=
  ⟨by decide, dispatch_unregistered_pin_noop dupState 5 1 (by decide)⟩

/-- C8 (the code at the failing input): `gpio.setup(5, f)` on the empty table with
a failing hardware call retains handle 1 (`luaL_ref`), makes no `luaL_unref`,
pushes 0, and no table entry stores handle 1: the handle stays live in the
registry and is stored nowhere. -/
theorem setup_hw_failure_leaks_handle :
    failedIrqSetup.admissible State.init ∧
    (l_gpio_setup sampleConsts State.init failedIrqSetup).pushed = [0] ∧
    (l_gpio_setup sampleConsts State.init failedIrqSetup).events =
      [Event.luaL_ref 1, Event.luat_gpio_setup (setupConf sampleConsts failedIrqSetup)] ∧
    (l_gpio_setup sampleConsts State.init failedIrqSetup).state.registry = [1] ∧
    ∀ e ∈ (l_gpio_setup sampleConsts State.init failedIrqSetup).state.irq_cbs.val,
      e.lua_ref ≠ 1 :=
  ⟨by decide, by decide, by decide, by decide, by decide⟩

/-- C9 (counterexample): the run `reuseRun` is admissible, every retained key
being different from the keys alive at that moment.  Key 1 is stored for pin 5
when `gpio.close(5)` is called; after that call has returned, the dispatch of
`(6, 9)` calls key 1, and by the end of the run key 1 has been released twice. -/
theorem released_key_reused_and_invoked :
    admissibleRun sampleConsts State.init reuseRun ∧
    { pin := 5, lua_ref := 1 } ∈
      (run sampleConsts State.init (reuseRun.take 1)).1.irq_cbs.val ∧
    Event.lua_call 1 9 ∈
      (run sampleConsts (run sampleConsts State.init (reuseRun.take 2)).1
        (reuseRun.drop 2)).2 ∧
    (run sampleConsts State.init reuseRun).2.count (Event.luaL_unref 1) = 2 :=
  ⟨by decide, by decide, by decide, by decide⟩

/-- C9 (amended): in every sequence of `gpio.setup`, `gpio.close` and dispatch
calls from start-up in which each retained handle is fresh: (1) every
`luaL_unref` releases a handle that is live at that moment and every `lua_call`
calls a handle that is live at that moment; (2) after every prefix, every
non-zero handle stored in the table is live, so the key a dispatch looks up is 0
or a live handle, never a released one; (3) a handle stored for pin `p` when
`gpio.close(p)` is called is not live when the call returns, and every later
call of it comes after a later `luaL_ref` has handed out the same key again. -/
theorem release_and_lookup_only_live_handles (K : GpioConsts) (cs : List Call)
    (hadm : admissibleRun K State.init cs) :
    liveDiscipline [] (run K State.init cs).2 ∧
    (∀ pre post : List Call, cs = pre ++ post →
      (∀ h ∈ tableRefs (run K State.init pre).1.irq_cbs.val,
        h ∈ (run K State.init pre).1.registry) ∧
      ∀ p k, handlerLookup p (run K State.init pre).1.irq_cbs.val = some k →
        k = 0 ∨ k ∈ (run K State.init pre).1.registry) ∧
    (∀ (pre post : List Call) (p hw h : Int),
      cs = pre ++ Call.close p hw :: post → h ≠ 0 →
      { pin := p, lua_ref := h } ∈ (run K State.init pre).1.irq_cbs.val →
      h ∉ (l_gpio_close (run K State.init pre).1 p hw).state.registry ∧
      ∀ (a b : List Event) (x : Int),
        (run K (l_gpio_close (run K State.init pre).1 p hw).state post).2 =
          a ++ Event.lua_call h x :: b →
        Event.luaL_ref h ∈ a) := by
  refine ⟨(run_inv K cs State.init Inv_init hadm).2, ?_, ?_⟩
  · intro pre post hcs
    subst hcs
    have hinv := (run_inv K pre State.init Inv_init
      ((admissibleRun_append K pre post State.init).mp hadm).1).1
    refine ⟨hinv.live, ?_⟩
    intro p k hk
    obtain ⟨e, he, _, hek⟩ := handlerLookup_mem p k _ hk
    by_cases h0 : k = 0
    · exact Or.inl h0
    · exact Or.inr (hinv.live k (mem_tableRefs.mpr ⟨h0, e, he, hek⟩))
  · intro pre post p hw h hcs h0 hmem
    subst hcs
    rw [admissibleRun_append] at hadm
    obtain ⟨hpre, hrest⟩ := hadm
    have hinvPre := (run_inv K pre State.init Inv_init hpre).1
    have hinvClose := (l_gpio_close_inv (run K State.init pre).1 p hw hinvPre).1
    have hpost := (run_inv K post _ hinvClose hrest.2).2
    have hdead : h ∉ (l_gpio_close (run K State.init pre).1 p hw).state.registry := by
      have hreg : (l_gpio_close (run K State.init pre).1 p hw).state.registry =
          regAfter (run K State.init pre).1.registry
            (l_gpio_close (run K State.init pre).1 p hw).events := rfl
      rw [hreg, l_gpio_close_events]
      apply not_mem_regAfter_of_unref
      · apply List.mem_cons_of_mem
        apply List.mem_map_of_mem
        rw [mem_tableRefs]
        exact ⟨h0, _, List.mem_filter.mpr ⟨hmem, by simp⟩, rfl⟩
      · simp
    refine ⟨hdead, ?_⟩
    intro a b x htrace
    rw [htrace] at hpost
    exact ref_before_call_of_liveDiscipline h x _ a b hpost hdead

/-- The preceding theorem on `reuseRun`: key 1 is not live when `gpio.close(5)`
returns, and its later call comes after the `luaL_ref` of the second set-up. -/
theorem release_and_lookup_only_live_handles_witness :
    admissibleRun sampleConsts State.init reuseRun ∧
    liveDiscipline [] (run sampleConsts State.init reuseRun).2 ∧
    (1 : Int) ∉ (l_gpio_close (run sampleConsts State.init (reuseRun.take 1)).1 5 0).state.registry ∧
    ∀ (a b : List Event) (x : Int),
      (run sampleConsts (l_gpio_close (run sampleConsts State.init (reuseRun.take 1)).1
        5 0).state (reuseRun.drop 2)).2 = a ++ Event.lua_call 1 x :: b →
      Event.luaL_ref 1 ∈ a :=
  ⟨by decide,
    (release_and_lookup_only_live_handles sampleConsts reuseRun (by decide)).1,
    ((release_and_lookup_only_live_handles sampleConsts reuseRun (by decide)).2.2
      (reuseRun.take 1) (reuseRun.drop 2) 5 0 1 (by decide) (by decide) (by decide)).1,
    ((release_and_lookup_only_live_handles sampleConsts reuseRun (by decide)).2.2
      (reuseRun.take 1) (reuseRun.drop 2) 5 0 1 (by decide) (by decide) (by decide)).2⟩

/-- C10 (the code at the failing input): `gpio.setup(17, nil)`, an input-mode
call without callback, on the empty table reaches a state in which an entry has
pin 17 and `lua_ref = 0`: an occupied slot of `irq_cbs` that owns no callback. -/
theorem input_setup_occupies_slot_without_callback :
    Reachable sampleConsts (l_gpio_setup sampleConsts State.init inputSetup17).state ∧
    ∃ e ∈ (l_gpio_setup sampleConsts State.init inputSetup17).state.irq_cbs.val,
      e.pin ≠ 0 ∧ e.lua_ref = 0 :=
  ⟨Reachable.setup _ _ Reachable.init (by decide), { pin := 17, lua_ref := 0 }, by decide,
    by decide, by decide⟩

/-- When only `gpio.close` calls and interrupt-mode `gpio.setup` calls are made,
every entry with `pin ≠ 0` holds a non-zero handle, that handle is live, and no
other slot stores it: occupied slots without a callback come from the
`gpio.setup` calls that carry no function. -/
theorem irq_occupied_slot_owns_one_handle (K : GpioConsts) (s : State)
    (hr : ReachableIrq K s) :
    ∀ e ∈ s.irq_cbs.val, e.pin ≠ 0 →
      e.lua_ref ≠ 0 ∧ e.lua_ref ∈ s.registry ∧
      (s.irq_cbs.val.map (fun a => a.lua_ref)).count e.lua_ref = 1 := by
  intro e he hp
  have h0 := ReachableIrq.occupied hr e he hp
  have hinv := Reachable.inv (ReachableIrq.reachable hr)
  have hm : e.lua_ref ∈ tableRefs s.irq_cbs.val := mem_tableRefs.mpr ⟨h0, e, he, rfl⟩
  refine ⟨h0, hinv.live _ hm, ?_⟩
  have := List.count_eq_one_of_mem hinv.nodup hm
  unfold tableRefs at this
  rwa [List.count_filter (by simpa using h0)] at this

/-- The preceding theorem after the interrupt set-up of pin 5 with handle 1. -/
theorem irq_occupied_slot_owns_one_handle_witness :
    ReachableIrq sampleConsts (l_gpio_setup sampleConsts State.init (irqSetup 5 1)).state ∧
    ∀ e ∈ (l_gpio_setup sampleConsts State.init (irqSetup 5 1)).state.irq_cbs.val, e.pin ≠ 0 →
      e.lua_ref ≠ 0 ∧
      e.lua_ref ∈ (l_gpio_setup sampleConsts State.init (irqSetup 5 1)).state.registry ∧
      ((l_gpio_setup sampleConsts State.init (irqSetup 5 1)).state.irq_cbs.val.map
        (fun a => a.lua_ref)).count e.lua_ref = 1 :=
  ⟨ReachableIrq.setup _ _ ReachableIrq.init rfl (by decide),
    irq_occupied_slot_owns_one_handle sampleConsts _
      (ReachableIrq.setup _ _ ReachableIrq.init rfl (by decide))⟩

/-- C11: for every table and every request, `gpio.setup` pushes 1 exactly when
the hardware configure call returned 0 and some entry has the requested pin or
`pin = 0`.  In every other case it pushes 0, leaves the table unchanged, and
calls `luat_gpio_close` (once, on the requested pin) exactly when the hardware
call had succeeded.  On success `luat_gpio_close` is not called. -/
theorem setup_success_iff_hw_ok_and_slot (K : GpioConsts) (s : State) (c : SetupCall) :
    ((l_gpio_setup K s c).pushed = [1] ↔
      c.hwResult = 0 ∧ ∃ e ∈ s.irq_cbs.val, e.pin = c.pin ∨ e.pin = 0) ∧
    ((l_gpio_setup K s c).pushed = [1] →
      (l_gpio_setup K s c).events.filter Event.isHwClose = []) ∧
    ((l_gpio_setup K s c).pushed ≠ [1] →
      (l_gpio_setup K s c).pushed = [0] ∧
      (l_gpio_setup K s c).state.irq_cbs = s.irq_cbs ∧
      (l_gpio_setup K s c).events.filter Event.isHwClose =
        if c.hwResult = 0 then [Event.luat_gpio_close c.pin] else []) := by
  by_cases hw : c.hwResult = 0
  · by_cases hslot : ∃ e ∈ s.irq_cbs.val, e.pin = c.pin ∨ e.pin = 0
    · rw [l_gpio_setup_of_slot K s c hw hslot]
      simp [finish, hw, hslot, setupRefEvents_noClose, setupScan_events_noClose,
        Event.isHwClose]
    · have hfull : ∀ e ∈ s.irq_cbs.val, e.pin ≠ 0 ∧ e.pin ≠ c.pin := by
        intro e he
        exact ⟨fun h0 => hslot ⟨e, he, Or.inr h0⟩, fun hp => hslot ⟨e, he, Or.inl hp⟩⟩
      rw [l_gpio_setup_of_full K s c hw hfull]
      simp only [finish, hw, hslot, setupRefEvents_noClose, Event.isHwClose,
        List.filter_append, and_false, if_true]
      simp [Event.isHwClose]
  · rw [l_gpio_setup_of_hw_failure K s c hw]
    simp [finish, hw, setupRefEvents_noClose, Event.isHwClose]

/-- C13: in every reachable state, for every pin `p` that has no registered
entry (`p = 0`, or no entry has pin `p`), `gpio.close(p)` makes the one outside
call `luat_gpio_close(p)`, releases no handle, leaves the state (every table
entry) unchanged and returns 0, whatever `luat_gpio_close` hands back. -/
theorem close_unregistered_pin_noop (K : GpioConsts) (s : State) (hr : Reachable K s)
    (p : Int) (hp : p = 0 ∨ ∀ e ∈ s.irq_cbs.val, e.pin ≠ p) (hw : Int) :
    l_gpio_close s p hw =
      { state := s, events := [Event.luat_gpio_close p], ret := 0, pushed := [] } := by
  have hclean := Reachable.emptyClean hr
  have hscan : closeScan p s.irq_cbs.val = (s.irq_cbs.val, []) := by
    apply closeScan_noop
    intro e he hep
    rcases hp with h0 | hno
    · have hz : e.pin = 0 := hep.trans h0
      exact ⟨hz, hclean e he hz⟩
    · exact absurd hep (hno e he)
  have hT : Table.closeScan p s.irq_cbs = (s.irq_cbs, []) := by
    simp only [Table.closeScan]
    ext <;> simp [hscan]
  simp [l_gpio_close, hT, finish, regAfter, regStep]

/-- The preceding theorem in the state `dupState`, for the pins 0 and 5. -/
theorem close_unregistered_pin_noop_witness :
    ((0 : Int) = 0 ∨ ∀ e ∈ dupState.irq_cbs.val, e.pin ≠ 0) ∧
    ((5 : Int) = 0 ∨ ∀ e ∈ dupState.irq_cbs.val, e.pin ≠ 5) ∧
    l_gpio_close dupState 0 1 =
      { state := dupState, events := [Event.luat_gpio_close 0], ret := 0, pushed := [] } ∧
    l_gpio_close dupState 5 0 =
      { state := dupState, events := [Event.luat_gpio_close 5], ret := 0, pushed := [] } :=
  ⟨by decide, by decide,
    close_unregistered_pin_noop sampleConsts dupState dupState_reachable 0 (by decide) 1,
    close_unregistered_pin_noop sampleConsts dupState dupState_reachable 5 (by decide) 0⟩

/-- C14: the one `luat_gpio_setup` call of `gpio.setup` gets a record with the
requested pin, a mode fixed by the shape of argument 2 alone (`Luat_GPIO_IRQ`
for a function, `Luat_GPIO_OUTPUT` for an integer, `Luat_GPIO_INPUT` for
anything else) and, as pull, argument 3 or `Luat_GPIO_DEFAULT` when argument 3
is absent; whatever the table, the other arguments and the hardware result. -/
theorem setup_conf_pin_mode_pull (K : GpioConsts) (s : State) (c : SetupCall) :
    ∃ conf, (l_gpio_setup K s c).events.filterMap Event.hwConf = [conf] ∧
      conf.pin = c.pin ∧
      conf.mode = (match c.mode with
        | LuaArg.function => K.Luat_GPIO_IRQ
        | LuaArg.integer _ => K.Luat_GPIO_OUTPUT
        | LuaArg.other => K.Luat_GPIO_INPUT) ∧
      conf.pull = (match c.pull with
        | some v => v
        | none => K.Luat_GPIO_DEFAULT) := by
  refine ⟨setupConf K c, l_gpio_setup_hwConf K s c, rfl, rfl, ?_⟩
  cases hpull : c.pull <;> simp [setupConf, hpull]

/-- C15: the record of the one `luat_gpio_setup` call has, as edge trigger,
`Luat_GPIO_BOTH` when argument 4 of `gpio.setup` is absent, and argument 4
itself when it is given. -/
theorem setup_conf_irq_default_both (K : GpioConsts) (s : State) (c : SetupCall) :
    ∃ conf, (l_gpio_setup K s c).events.filterMap Event.hwConf = [conf] ∧
      conf.irq = (match c.irq with
        | some v => v
        | none => K.Luat_GPIO_BOTH) := by
  refine ⟨setupConf K c, l_gpio_setup_hwConf K s c, ?_⟩
  cases hirq : c.irq <;> simp [setupConf, hirq]

/-- C16: for every integer `v` that `luat_gpio_get` returns, `gpio.get` pushes one
value, 0 or 1: it pushes 1 exactly when `v` is odd (bit 0 of `v` is 1) and 0
exactly when `v` is even; it returns 1 and leaves the state unchanged. -/
theorem get_pushes_lowest_bit (s : State) (pin v : Int) :
    ((l_gpio_get s pin v).pushed = [0] ∨ (l_gpio_get s pin v).pushed = [1]) ∧
    ((l_gpio_get s pin v).pushed = [1] ↔ v % 2 = 1) ∧
    ((l_gpio_get s pin v).pushed = [0] ↔ v % 2 = 0) ∧
    (l_gpio_get s pin v).ret = 1 ∧ (l_gpio_get s pin v).state = s := by
  have hcases : v % 2 = 0 ∨ v % 2 = 1 := Int.emod_two_eq_zero_or_one v
  rcases hcases with h | h
  · simp [l_gpio_get, finish, and0x01_eq, h, regAfter, regStep]
  · simp [l_gpio_get, finish, and0x01_eq, h, regAfter, regStep]

/-- C17 (the code at the failing input): in the reachable state `inputState17`
pin 17 has an entry without a callback.  The successful `gpio.setup(17, f)` that
retains handle 1 leaves that entry as `(17, 0)`: no entry stores handle 1, and
the following dispatch of `(17, 9)` calls nothing. -/
theorem setup_on_entry_without_callback_drops_handle :
    Reachable sampleConsts inputState17 ∧
    inputState17.irq_cbs.val[0]? = some { pin := 17, lua_ref := 0 } ∧
    (irqSetup 17 1).admissible inputState17 ∧
    (l_gpio_setup sampleConsts inputState17 (irqSetup 17 1)).pushed = [1] ∧
    (l_gpio_setup sampleConsts inputState17 (irqSetup 17 1)).state.irq_cbs.val[0]? =
      some { pin := 17, lua_ref := 0 } ∧
    (∀ e ∈ (l_gpio_setup sampleConsts inputState17 (irqSetup 17 1)).state.irq_cbs.val,
      e.lua_ref ≠ 1) ∧
    (l_gpio_setup sampleConsts inputState17 (irqSetup 17 1)).state.registry = [1] ∧
    (l_gpio_handler (l_gpio_setup sampleConsts inputState17 (irqSetup 17 1)).state
      17 9).events = [] :=
  ⟨inputState17_reachable, by decide, by decide, by decide, by decide, by decide, by decide,
    by decide⟩

/-- C18 (the code at the failing input): on the empty table, where no entry has
pin 17, the successful output-mode call `gpio.setup(17, 0)` writes `(17, 0)` into
slot 0, so the table is not left unchanged.  And after the sixteen output-mode
calls of `outputRun16`, which retain no callback, all slots are taken: the next
call `gpio.setup(17, 0)` pushes 0, after the warning "too many irq setup!!!!" and
the hardware close of pin 17. -/
theorem output_setup_claims_slot :
    (∀ a ∈ State.init.irq_cbs.val, a.pin ≠ outputSetup17.pin) ∧
    outputSetup17.mode ≠ LuaArg.function ∧
    (l_gpio_setup sampleConsts State.init outputSetup17).pushed = [1] ∧
    (l_gpio_setup sampleConsts State.init outputSetup17).state.irq_cbs.val[0]? =
      some { pin := 17, lua_ref := 0 } ∧
    (l_gpio_setup sampleConsts State.init outputSetup17).state.irq_cbs ≠
      State.init.irq_cbs ∧
    (∀ a ∈ (run sampleConsts State.init outputRun16).1.irq_cbs.val,
      a.pin ≠ 17 ∧ a.lua_ref = 0) ∧
    (l_gpio_setup sampleConsts (run sampleConsts State.init outputRun16).1
      outputSetup17).pushed = [0] ∧
    (l_gpio_setup sampleConsts (run sampleConsts State.init outputRun16).1
      outputSetup17).events =
      [Event.luat_gpio_setup (setupConf sampleConsts outputSetup17), Event.luat_log_warn,
        Event.luat_gpio_close 17] :=
  ⟨by decide, by decide, by decide, by decide, by decide, by decide, by decide, by decide⟩

/-- C19: for every table in which no entry has the requested pin and some slot
is empty, a successful interrupt `gpio.setup(p, f)` that retains handle `h`
changes exactly one slot: the lowest-index empty slot becomes `(p, h)`, every
other slot is unchanged, and the only outside calls are `luaL_ref` and
`luat_gpio_setup`, so no handle is released.  (The hypotheses imply `p ≠ 0`.) -/
theorem setup_claims_lowest_empty_slot (K : GpioConsts) (s : State) (c : SetupCall)
    (pre post : List luat_lib_gpio_cb_t) (e : luat_lib_gpio_cb_t)
    (hmode : c.mode = LuaArg.function) (hw : c.hwResult = 0)
    (hno : ∀ a ∈ s.irq_cbs.val, a.pin ≠ c.pin)
    (hsplit : s.irq_cbs.val = pre ++ e :: post) (hpre : ∀ a ∈ pre, a.pin ≠ 0)
    (he : e.pin = 0) :
    (l_gpio_setup K s c).pushed = [1] ∧
    (l_gpio_setup K s c).state.irq_cbs.val =
      pre ++ { pin := c.pin, lua_ref := c.newRef } :: post ∧
    (l_gpio_setup K s c).events =
      [Event.luaL_ref c.newRef, Event.luat_gpio_setup (setupConf K c)] ∧
    ∀ k, Event.luaL_unref k ∉ (l_gpio_setup K s c).events := by
  obtain ⟨h1, h2, h3⟩ := l_gpio_setup_of_claim K s c pre post e hw hno hsplit hpre he
  have href : (setupConf K c).lua_ref = c.newRef := by
    simp [setupConf, hmode]
  have hev : setupRefEvents c = [Event.luaL_ref c.newRef] := by
    simp [setupRefEvents, hmode]
  rw [href] at h2
  rw [hev] at h3
  refine ⟨h1, h2, h3, ?_⟩
  intro k
  rw [h3]
  simp

/-- The preceding theorem in the state `dupState`, where slot 0 is empty, for
pin 7 and handle 3. -/
theorem setup_claims_lowest_empty_slot_witness :
    (∀ a ∈ dupState.irq_cbs.val, a.pin ≠ (irqSetup 7 3).pin) ∧
    dupState.irq_cbs.val = [] ++ { pin := 0, lua_ref := 0 } ::
      ({ pin := 6, lua_ref := 2 } :: List.replicate 14 { pin := 0, lua_ref := 0 }) ∧
    (l_gpio_setup sampleConsts dupState (irqSetup 7 3)).pushed = [1] ∧
    (l_gpio_setup sampleConsts dupState (irqSetup 7 3)).state.irq_cbs.val =
      [] ++ { pin := 7, lua_ref := 3 } ::
        ({ pin := 6, lua_ref := 2 } :: List.replicate 14 { pin := 0, lua_ref := 0 }) :=
  ⟨by decide, by decide,
    (setup_claims_lowest_empty_slot sampleConsts dupState (irqSetup 7 3) []
      ({ pin := 6, lua_ref := 2 } :: List.replicate 14 { pin := 0, lua_ref := 0 })
      { pin := 0, lua_ref := 0 } rfl rfl (by decide) (by decide) (by decide) rfl).1,
    (setup_claims_lowest_empty_slot sampleConsts dupState (irqSetup 7 3) []
      ({ pin := 6, lua_ref := 2 } :: List.replicate 14 { pin := 0, lua_ref := 0 })
      { pin := 0, lua_ref := 0 } rfl rfl (by decide) (by decide) (by decide) rfl).2.1⟩

end GpioLib
